import Mathlib

/-!
# The falling-block engine of `src/main.go`

A shallow embedding of the board engine (`Game` and its methods `spawnPiece`,
`collision`, `moveDown`, `moveLeft`, `moveRight`, `rotate`, `lockPiece`,
`clearLines`, `Update`) together with the piece catalog, followed by the
theorems that settle the specification's claims about them.

Modelling conventions
* Go's `int` is `GoInt`, the 64-bit two's-complement integers: `+` and `-` wrap
  around, as they do in Go. Comparisons with constants and array indices are
  taken on the value `GoInt.val : Int`.
* `color.RGBA` is four bytes, `Fin 256` each.
* The fixed-size arrays `[4]Block`, `[boardWidth]color.RGBA` and
  `[boardHeight][boardWidth]color.RGBA` are functions out of `Fin 4`, `Fin 10`
  and `Fin 20`; an array access is only written where the index is known to be
  in range, exactly where the Go code cannot fail its bounds check.
* A method with a pointer receiver is a function from the session before the
  call to the session after it; `collision` never assigns to the session and is
  a function into `Bool`.
* `rand.Intn (len pieces)` is the argument `r : Fin 7`; `time.Now ()` is the
  argument `now`.
* The scan of `clearLines` can revisit a row index, so it is driven by a fuel
  counter: one unit of fuel per test of the loop condition, and `none` means the
  fuel ran out before the loop condition became false.
-/

namespace Tetris

/-! ## Constants and colours -/

/-- The constant `boardWidth` of the source. -/
abbrev boardWidth : Int := 10

/-- The constant `boardHeight` of the source. -/
abbrev boardHeight : Int := 20

/-- The value a 64-bit two's-complement register holds for the integer `n`. -/
def wrap64 (n : Int) : Int :=
  (n + 9223372036854775808) % 18446744073709551616 - 9223372036854775808

/-- The type `int` of Go on a 64-bit platform: the integers from `-2^63` to
`2^63 - 1`. -/
structure GoInt where
  val : Int
  lo : -9223372036854775808 ≤ val
  hi : val < 9223372036854775808

/-- The conversion of an integer to `int`; exact for integers in range. -/
def GoInt.ofInt (n : Int) : GoInt :=
  ⟨wrap64 n, by unfold wrap64; omega, by unfold wrap64; omega⟩

instance : DecidableEq GoInt := fun a b =>
  if h : a.val = b.val then
    isTrue (by cases a; cases b; simp only [] at h; subst h; rfl)
  else
    isFalse (fun e => h (by rw [e]))

/-- Go's `+` on `int`: wraps around on overflow. -/
instance : Add GoInt := ⟨fun a b => GoInt.ofInt (a.val + b.val)⟩

/-- Go's `-` on `int`: wraps around on overflow. -/
instance : Sub GoInt := ⟨fun a b => GoInt.ofInt (a.val - b.val)⟩

/-- Go's unary `-` on `int`. -/
instance : Neg GoInt := ⟨fun a => GoInt.ofInt (-a.val)⟩

/-- Integer literals of type `int`. -/
instance (n : Nat) : OfNat GoInt n := ⟨GoInt.ofInt n⟩

/-- The type `color.RGBA`: four bytes. -/
structure RGBA where
  R : Fin 256
  G : Fin 256
  B : Fin 256
  A : Fin 256
deriving DecidableEq, Repr

/-- The variable `backgroundColor`: solid black. -/
def backgroundColor : RGBA := ⟨0x00, 0x00, 0x00, 0xff⟩

/-- The zero value `color.RGBA{}`: every channel 0, alpha included. -/
def zeroColor : RGBA := ⟨0, 0, 0, 0⟩

/-- The table `blockColors`. -/
def blockColors : Fin 7 → RGBA
  | 0 => ⟨0xff, 0x00, 0x00, 0xff⟩
  | 1 => ⟨0x00, 0xff, 0x00, 0xff⟩
  | 2 => ⟨0x00, 0x00, 0xff, 0xff⟩
  | 3 => ⟨0xff, 0xff, 0x00, 0xff⟩
  | 4 => ⟨0xff, 0x00, 0xff, 0xff⟩
  | 5 => ⟨0x00, 0xff, 0xff, 0xff⟩
  | 6 => ⟨0xff, 0x7f, 0x00, 0xff⟩

/-! ## Data model -/

/-- The type `Block`: one relative cell offset. -/
structure Block where
  x : GoInt
  y : GoInt
deriving DecidableEq

/-- An array literal `[4]Block{a, b, c, d}`. -/
def blocks4 (a b c d : Block) : Fin 4 → Block
  | 0 => a
  | 1 => b
  | 2 => c
  | 3 => d

/-- The type `Piece`: four offsets and a colour. -/
structure Piece where
  blocks : Fin 4 → Block
  color : RGBA

/-- The catalog `pieces`: I, O, T, L, J, S, Z. -/
def pieces : Fin 7 → Piece
  | 0 => ⟨blocks4 ⟨0, 0⟩ ⟨1, 0⟩ ⟨2, 0⟩ ⟨3, 0⟩, blockColors 0⟩
  | 1 => ⟨blocks4 ⟨0, 0⟩ ⟨1, 0⟩ ⟨0, 1⟩ ⟨1, 1⟩, blockColors 1⟩
  | 2 => ⟨blocks4 ⟨0, 0⟩ ⟨1, 0⟩ ⟨2, 0⟩ ⟨1, 1⟩, blockColors 2⟩
  | 3 => ⟨blocks4 ⟨0, 0⟩ ⟨1, 0⟩ ⟨2, 0⟩ ⟨2, 1⟩, blockColors 3⟩
  | 4 => ⟨blocks4 ⟨0, 0⟩ ⟨1, 0⟩ ⟨2, 0⟩ ⟨0, 1⟩, blockColors 4⟩
  | 5 => ⟨blocks4 ⟨0, 0⟩ ⟨1, 0⟩ ⟨1, 1⟩ ⟨2, 1⟩, blockColors 5⟩
  | 6 => ⟨blocks4 ⟨1, 0⟩ ⟨2, 0⟩ ⟨0, 1⟩ ⟨1, 1⟩, blockColors 6⟩

/-- One board row, `[boardWidth]color.RGBA`. -/
abbrev Row := Fin 10 → RGBA

/-- The board, `[boardHeight][boardWidth]color.RGBA`: row index first. -/
abbrev Board := Fin 20 → Row

/-- The type `Game`. The two time fields are kept as integers (nanoseconds). -/
structure Game where
  board : Board
  currentPiece : Piece
  currentX : GoInt
  currentY : GoInt
  score : GoInt
  gameOver : Bool
  lastMoveTime : Int
  moveInternal : Int

/-- The indices a `range` loop over a `[4]Block` visits, in order. -/
def blockIdx : List (Fin 4) := [0, 1, 2, 3]

/-- The column indices `0 .. boardWidth-1`, in order. -/
def colIdx : List (Fin 10) := [0, 1, 2, 3, 4, 5, 6, 7, 8, 9]

/-- The row indices `0 .. boardHeight-1`, in order. -/
def rowIdx : List (Fin 20) :=
  [0, 1, 2, 3, 4, 5, 6, 7, 8, 9, 10, 11, 12, 13, 14, 15, 16, 17, 18, 19]

/-- The read `board[y][x]` for integer indices that pass the bounds check. -/
def cellAt (b : Board) (y x : Int) (hy : 0 ≤ y ∧ y < boardHeight)
    (hx : 0 ≤ x ∧ x < boardWidth) : RGBA :=
  b ⟨y.toNat, by simp only [boardHeight] at hy; omega⟩
    ⟨x.toNat, by simp only [boardWidth] at hx; omega⟩

/-- The write `board[y][x] = c` for indices in range. -/
def setCell (b : Board) (y : Fin 20) (x : Fin 10) (c : RGBA) : Board :=
  fun r k => if r = y ∧ k = x then c else b r k

/-- The write `board[y] = row` of a whole row. -/
def setRow (b : Board) (y : Fin 20) (row : Row) : Board :=
  fun r => if r = y then row else b r

/-! ## Collision -/

/-- The body of the loop of `collision` for one block: `true` when one of the
two `return true` statements is reached, `false` when the loop goes on. -/
def blockCollides (g : Game) (block : Block) : Bool :=
  let x := (g.currentX + block.x).val
  let y := (g.currentY + block.y).val
  if h : x < 0 ∨ x ≥ boardWidth ∨ y ≥ boardHeight then
    true
  else if hy : y ≥ 0 then
    if cellAt g.board y x ⟨hy, by omega⟩ ⟨by omega, by omega⟩ ≠ backgroundColor then
      true
    else
      false
  else
    false

/-- The method `collision`: the first block that returns `true` ends the loop. -/
def collision (g : Game) : Bool :=
  blockIdx.any fun i => blockCollides g (g.currentPiece.blocks i)

/-! ## Spawning and the horizontal moves -/

/-- The method `spawnPiece`, with the random draw `r`. -/
def spawnPiece (r : Fin 7) (g : Game) : Game :=
  let g1 := { g with currentPiece := pieces r }
  let g2 := { g1 with currentX := GoInt.ofInt (boardWidth / 2 - 2) }
  let g3 := { g2 with currentY := -1 }
  if collision g3 then { g3 with gameOver := true } else g3

/-- The method `moveLeft`. -/
def moveLeft (g : Game) : Game :=
  let g1 := { g with currentX := g.currentX - 1 }
  if collision g1 then { g1 with currentX := g1.currentX + 1 } else g1

/-- The method `moveRight`. -/
def moveRight (g : Game) : Game :=
  let g1 := { g with currentX := g.currentX + 1 }
  if collision g1 then { g1 with currentX := g1.currentX - 1 } else g1

/-! ## Rotation -/

/-- One pass of the loop of `rotate`: `blocks[i].x, blocks[i].y` are overwritten
with the old `blocks[i].y, blocks[i].x`. -/
def swapBlock (p : Piece) (i : Fin 4) : Piece :=
  let x := (p.blocks i).y
  let y := (p.blocks i).x
  { p with blocks := fun j => if j = i then ⟨x, y⟩ else p.blocks j }

/-- The method `rotate`. -/
def rotate (g : Game) : Game :=
  let original := g.currentPiece
  let g1 := { g with currentPiece := blockIdx.foldl swapBlock g.currentPiece }
  if collision g1 then { g1 with currentPiece := original } else g1

/-! ## Locking and clearing -/

/-- The body of the loop of `lockPiece` for block `i`. -/
def lockBlock (piece : Piece) (cx cy : GoInt) (b : Board) (i : Fin 4) : Board :=
  let x := (cx + (piece.blocks i).x).val
  let y := (cy + (piece.blocks i).y).val
  if h : y ≥ 0 ∧ y < boardHeight ∧ x ≥ 0 ∧ x < boardWidth then
    setCell b ⟨y.toNat, by simp only [boardHeight] at h; omega⟩
      ⟨x.toNat, by simp only [boardWidth] at h; omega⟩ piece.color
  else
    b

/-- The first loop of `lockPiece` (lines 134-139): the session that is handed
to `clearLines`. -/
def lockWrite (g : Game) : Game :=
  { g with board := blockIdx.foldl (lockBlock g.currentPiece g.currentX g.currentY) g.board }

/-- The inner scan of `clearLines` (lines 145-151): `full` stays `true` unless
some column of the row holds `backgroundColor`. -/
def rowFull (row : Row) : Bool :=
  colIdx.all fun x => !(decide (row x = backgroundColor))

/-- The loop `for yy := y; yy > 0; yy-- { board[yy] = board[yy-1] }`. -/
def shiftRows : (yy : Nat) → yy < 20 → Board → Board
  | 0, _, b => b
  | yy + 1, h, b => shiftRows yy (by omega) (setRow b ⟨yy + 1, h⟩ (b ⟨yy, by omega⟩))

/-- The array literal `[boardWidth]color.RGBA{}`: ten zero values. -/
def zeroRow : Row := fun _ => zeroColor

/-- The body of `if full { ... }` in `clearLines`, apart from `y++`. -/
def clearRow (g : Game) (y : Fin 20) : Game :=
  let g1 := { g with score := g.score + 100 }
  let g2 := { g1 with board := shiftRows y.val y.isLt g1.board }
  { g2 with board := setRow g2.board 0 zeroRow }

/-- The loop `for y := ...; y >= 0; y--` of `clearLines`, entered with the loop
variable equal to `y`. The index `y` stays below `boardHeight`, so `board[y]`
never fails. -/
def clearLinesLoop : Nat → (y : Int) → y < boardHeight → Game → Option Game
  | 0, _, _, _ => none
  | fuel + 1, y, hy, g =>
    if h : y ≥ 0 then
      if rowFull (g.board ⟨y.toNat, by simp only [boardHeight] at hy; omega⟩) then
        clearLinesLoop fuel (y + 1 - 1) (by omega)
          (clearRow g ⟨y.toNat, by simp only [boardHeight] at hy; omega⟩)
      else
        clearLinesLoop fuel (y - 1) (by omega) g
    else
      some g

/-- The method `clearLines`. -/
def clearLines (fuel : Nat) (g : Game) : Option Game :=
  clearLinesLoop fuel (boardHeight - 1) (by decide) g

/-- The method `lockPiece`, with the random draw `r` of its `spawnPiece`. -/
def lockPiece (fuel : Nat) (r : Fin 7) (g : Game) : Option Game :=
  match clearLines fuel (lockWrite g) with
  | none => none
  | some g1 => some (spawnPiece r g1)

/-- The method `moveDown`, with the session after the call and the returned
flag. -/
def moveDown (fuel : Nat) (r : Fin 7) (g : Game) : Option (Game × Bool) :=
  let g1 := { g with currentY := g.currentY + 1 }
  if collision g1 then
    let g2 := { g1 with currentY := g1.currentY - 1 }
    match lockPiece fuel r g2 with
    | none => none
    | some g3 => some (g3, false)
  else
    some (g1, true)

/-- The board `NewGame` builds with its two nested loops. -/
def fillBackground (b : Board) : Board :=
  rowIdx.foldl (fun b1 y => colIdx.foldl (fun b2 x => setCell b2 y x backgroundColor) b1) b

/-- The zero value of `Game` with the two time fields of the literal. -/
def zeroGame (now : Int) : Game :=
  { board := fun _ _ => zeroColor
    currentPiece := ⟨fun _ => ⟨0, 0⟩, zeroColor⟩
    currentX := 0
    currentY := 0
    score := 0
    gameOver := false
    lastMoveTime := now
    moveInternal := 1000000000 }

/-- The function `NewGame`, with the clock reading `now` and the draw `r`. -/
def NewGame (now : Int) (r : Fin 7) : Game :=
  let g := zeroGame now
  spawnPiece r { g with board := fillBackground g.board }

/-! ## The tick -/

/-- What one call of `Update` reads from outside the session: the key states,
the two clock readings and the results of the calls of `rand.Intn` it makes, in
the order in which they are made. -/
structure Tick where
  keyLeft : Bool
  keyRight : Bool
  keyDown : Bool
  keyUp : Bool
  clock : Int
  now : Int
  draw : Nat → Fin 7

/-- A call of `moveDown` inside a tick in which `used` draws have been taken:
the call takes the next draw exactly when it locks (returns `false`). The
result is the session, the returned flag and the number of draws taken. -/
def moveDownTick (fuel : Nat) (t : Tick) (used : Nat) (g : Game) :
    Option (Game × Bool × Nat) :=
  match moveDown fuel (t.draw used) g with
  | none => none
  | some (g1, moved) => some (g1, moved, if moved then used else used + 1)

/-- The method `Update`: the session after the tick and the number of draws
taken. `keyUp` is `inpututil.IsKeyJustPressed (ebiten.KeyUp)`, `clock` is the
reading `time.Since` makes on line 179 and `now` the reading of line 183. -/
def Update (fuel : Nat) (t : Tick) (g : Game) : Option (Game × Nat) :=
  if g.gameOver then
    some (g, 0)
  else
    let g1 := if t.keyLeft then moveLeft g else g
    let g2 := if t.keyRight then moveRight g1 else g1
    match (if t.keyDown then (moveDownTick fuel t 0 g2).map (fun p => (p.1, p.2.2))
      else some (g2, 0)) with
    | none => none
    | some (g3, used3) =>
      let g4 := if t.keyUp then rotate g3 else g3
      if t.clock - g4.lastMoveTime ≥ g4.moveInternal then
        match moveDownTick fuel t used3 g4 with
        | none => none
        | some (g5, moved, used5) =>
          let g6 := if !moved then spawnPiece (t.draw used5) g5 else g5
          let used6 := if !moved then used5 + 1 else used5
          some ({ g6 with lastMoveTime := t.now }, used6)
      else
        some (g4, used3)

/-! ## Vocabulary of the specification -/

/-- Column of the active piece's `i`-th absolute cell: the value of the Go
expression `g.currentX + block.x`. -/
def absX (g : Game) (i : Fin 4) : Int := (g.currentX + (g.currentPiece.blocks i).x).val

/-- Row of the active piece's `i`-th absolute cell: the value of the Go
expression `g.currentY + block.y`. -/
def absY (g : Game) (i : Fin 4) : Int := (g.currentY + (g.currentPiece.blocks i).y).val

/-- The board has a cell at row `y`, column `x`, and that cell is non-empty
(differs from `backgroundColor`). -/
def occupied (b : Board) (y x : Int) : Prop :=
  ∃ (r : Fin 20) (c : Fin 10), (r.val : Int) = y ∧ (c.val : Int) = x ∧ b r c ≠ backgroundColor

/-- Every cell of the active piece has its column in `[0, 10)` and its row
below 20. -/
def InBounds (g : Game) : Prop :=
  ∀ i : Fin 4, 0 ≤ absX g i ∧ absX g i < 10 ∧ absY g i < 20

/-- No cell of the active piece with row `≥ 0` lies on a non-empty board cell. -/
def NoOverlap (g : Game) : Prop :=
  ∀ i : Fin 4, absY g i ≥ 0 → ¬ occupied g.board (absY g i) (absX g i)

/-- The piece with every offset `(x, y)` replaced by `(y, x)`, colour kept. -/
def transposed (p : Piece) : Piece :=
  { p with blocks := fun i => ⟨(p.blocks i).y, (p.blocks i).x⟩ }

/-- The session `spawnPiece` tests for collision: the drawn piece at the spawn
anchor, everything else as before. -/
def spawned (r : Fin 7) (g : Game) : Game :=
  { g with
    currentPiece := pieces r
    currentX := GoInt.ofInt (boardWidth / 2 - 2)
    currentY := -1 }

/-- The loop of `clearLines` with a counter `k` of the rows cleared so far added
to its state; erasing the counter gives `clearLinesLoop`. -/
def clearLinesCount : Nat → (y : Int) → y < boardHeight → Game → Nat → Option (Game × Nat)
  | 0, _, _, _, _ => none
  | fuel + 1, y, hy, g, k =>
    if h : y ≥ 0 then
      if rowFull (g.board ⟨y.toNat, by simp only [boardHeight] at hy; omega⟩) then
        clearLinesCount fuel (y + 1 - 1) (by omega)
          (clearRow g ⟨y.toNat, by simp only [boardHeight] at hy; omega⟩) (k + 1)
      else
        clearLinesCount fuel (y - 1) (by omega) g k
    else
      some (g, k)

/-- The session the scan of `clearLines` holds once its loop condition has been
tested `n` times, or the session it ends with if the loop is over by then. -/
def clearLinesAfter : Nat → (y : Int) → y < boardHeight → Game → Game
  | 0, _, _, g => g
  | n + 1, y, hy, g =>
    if h : y ≥ 0 then
      if rowFull (g.board ⟨y.toNat, by simp only [boardHeight] at hy; omega⟩) then
        clearLinesAfter n (y + 1 - 1) (by omega)
          (clearRow g ⟨y.toNat, by simp only [boardHeight] at hy; omega⟩)
      else
        clearLinesAfter n (y - 1) (by omega) g
    else
      g

/-- The session a call of `clearLines` holds once its loop condition has been
tested `n` times. -/
def scanAfter (n : Nat) (g : Game) : Game :=
  clearLinesAfter n (boardHeight - 1) (by decide) g

/-- The method `clearLines` together with the number of rows it cleared. -/
def clearLinesCounted (fuel : Nat) (g : Game) : Option (Game × Nat) :=
  clearLinesCount fuel (boardHeight - 1) (by decide) g 0

/-- The sessions reachable from `NewGame` by calls of `moveLeft`, `moveRight`,
`rotate` and `moveDown`; a `moveDown` call counts when it returns. -/
inductive Reachable : Game → Prop
  | init (now : Int) (r : Fin 7) : Reachable (NewGame now r)
  | left {g : Game} : Reachable g → Reachable (moveLeft g)
  | right {g : Game} : Reachable g → Reachable (moveRight g)
  | rot {g : Game} : Reachable g → Reachable (rotate g)
  | down {g g1 : Game} {moved : Bool} (fuel : Nat) (r : Fin 7) :
      Reachable g → moveDown fuel r g = some (g1, moved) → Reachable g1

/-- One call of a session method; `down r` is `moveDown` with the draw `r`
ready for the spawn that follows a lock. -/
inductive Call
  | left
  | right
  | rot
  | down (r : Fin 7)

/-- The session after a list of calls, first call first. -/
def runCalls : List Call → Game → Option Game
  | [], g => some g
  | Call.left :: t, g => runCalls t (moveLeft g)
  | Call.right :: t, g => runCalls t (moveRight g)
  | Call.rot :: t, g => runCalls t (rotate g)
  | Call.down r :: t, g =>
    match moveDown 21 r g with
    | none => none
    | some p => runCalls t p.1

/-! ## Concrete sessions -/

/-- A session with the given board, piece and anchor, score 0, not over. -/
def sessionAt (b : Board) (p : Piece) (x y : GoInt) : Game :=
  { board := b
    currentPiece := p
    currentX := x
    currentY := y
    score := 0
    gameOver := false
    lastMoveTime := 0
    moveInternal := 1000000000 }

/-- The board with every cell empty. -/
def emptyBoard : Board := fun _ _ => backgroundColor

/-- The I piece stood upright: offsets `(0,0) (0,1) (0,2) (0,3)`. -/
def uprightI : Piece := ⟨blocks4 ⟨0, 0⟩ ⟨0, 1⟩ ⟨0, 2⟩ ⟨0, 3⟩, blockColors 0⟩

/-- Row 19 is filled except for column 3; an upright I rests in column 3 on the
floor (rows 16 to 19), so that locking it completes row 19 and no other row. -/
def bottomGapGame : Game :=
  sessionAt (fun r c => if r = 19 ∧ c ≠ 3 then blockColors 1 else backgroundColor) uprightI 3 16

/-- Row 19 is filled in every column, every other cell is empty. -/
def bottomFullGame : Game :=
  sessionAt (fun r _ => if r = 19 then blockColors 1 else backgroundColor) (pieces 1) 3 (-1)

/-- The two top rows are filled in every column, every other cell is empty. -/
def topFilledGame : Game :=
  sessionAt (fun r _ => if r = 0 ∨ r = 1 then blockColors 1 else backgroundColor) (pieces 1) 3 10

/-- An O piece resting on the floor of an empty board. -/
def restingGame : Game := sessionAt emptyBoard (pieces 1) 3 18

/-- An I piece lying in row 17 of an empty board: upright it would reach row 20. -/
def lowGame : Game := sessionAt emptyBoard (pieces 0) 3 17

/-- An O piece against the left wall of an empty board. -/
def leftWallGame : Game := sessionAt emptyBoard (pieces 1) 0 5

/-- An O piece against the right wall of an empty board. -/
def rightWallGame : Game := sessionAt emptyBoard (pieces 1) 8 5

/-- Stand the fresh piece upright, then call `moveDown` `n` times, the last of
which locks it and draws `r`. -/
def dropUpright (n : Nat) (r : Fin 7) : List Call :=
  Call.rot :: List.replicate n (Call.down r)

/-- One upright I piece is locked in column 3 (rows 16 to 19); the next I piece
is stood upright and lowered 13 times, until it rests on the first (rows 12 to
15). -/
def restCalls : List Call :=
  dropUpright 18 0 ++ Call.rot :: List.replicate 13 (Call.down 0)

/-- The least value of `int`, `-2^63`. -/
def minInt : GoInt := GoInt.ofInt (-9223372036854775808)

/-- The greatest value of `int`, `2^63 - 1`. -/
def maxInt : GoInt := GoInt.ofInt 9223372036854775807

/-- A session at the edge of the `int` range: anchor column and all four column
offsets are `-2^63`, so that each sum wraps around to column 0; the piece lies
in row -1 of an empty board. -/
def farGame : Game :=
  sessionAt emptyBoard ⟨fun _ => ⟨minInt, 0⟩, blockColors 0⟩ minInt (-1)

/-- The same piece and anchor column as in `farGame`, in row 5: each of the four
cells is row 5, column 0. -/
def farLockGame : Game :=
  sessionAt emptyBoard ⟨fun _ => ⟨minInt, 0⟩, blockColors 0⟩ minInt 5

/-- Five upright I pieces stacked in column 3 from the floor to row 0; the last
lock draws the J piece, whose cell `(0, 1)` spawns at row 0 of column 3. -/
def towerCalls : List Call :=
  dropUpright 18 0 ++ dropUpright 14 0 ++ dropUpright 10 0 ++ dropUpright 6 0 ++
    dropUpright 2 4

/-- Rows 18 and 19 are filled except for column 3; an upright I rests in column
3 on the floor, so that locking it completes rows 18 and 19 and no other row. -/
def doubleGapGame : Game :=
  sessionAt (fun r c => if (r = 18 ∨ r = 19) ∧ c ≠ 3 then blockColors 1 else backgroundColor)
    uprightI 3 16

/-- The session `restingGame` with the game-over flag set. -/
def overGame : Game := { restingGame with gameOver := true }

/-- A tick with no key held, one second after the last step: the first draw is
the T piece, every later draw the I piece. -/
def fallTick : Tick :=
  { keyLeft := false
    keyRight := false
    keyDown := false
    keyUp := false
    clock := 1000000000
    now := 1000000007
    draw := fun n => if n = 0 then 2 else 0 }

/-- A tick with every key held, one second after the last step. -/
def allKeysTick : Tick :=
  { keyLeft := true
    keyRight := true
    keyDown := true
    keyUp := true
    clock := 1000000000
    now := 1000000007
    draw := fun _ => 1 }

/-! ## Facts about `int` arithmetic -/

theorem GoInt.ext {a b : GoInt} (h : a.val = b.val) : a = b := by
  cases a; cases b; simp only [] at h; subst h; rfl

theorem GoInt.add_val (a b : GoInt) : (a + b).val = wrap64 (a.val + b.val) := rfl

theorem GoInt.sub_val (a b : GoInt) : (a - b).val = wrap64 (a.val - b.val) := rfl

theorem GoInt.ofInt_val (n : Int) : (GoInt.ofInt n).val = wrap64 n := rfl

theorem GoInt.lit_val (n : Nat) : (OfNat.ofNat n : GoInt).val = wrap64 n := rfl

theorem wrap64_of_range (n : Int) (h1 : -9223372036854775808 ≤ n)
    (h2 : n < 9223372036854775808) : wrap64 n = n := by
  unfold wrap64; omega

theorem GoInt.sub_add_cancel (a b : GoInt) : a - b + b = a := by
  apply GoInt.ext
  have := a.lo; have := a.hi
  rw [GoInt.add_val, GoInt.sub_val]
  unfold wrap64
  omega

theorem GoInt.add_sub_cancel (a b : GoInt) : a + b - b = a := by
  apply GoInt.ext
  have := a.lo; have := a.hi
  rw [GoInt.sub_val, GoInt.add_val]
  unfold wrap64
  omega

/-! ## Facts about `collision` -/

theorem mem_blockIdx (i : Fin 4) : i ∈ blockIdx := by
  revert i; decide

theorem cellAt_coe (b : Board) (r : Fin 20) (c : Fin 10)
    (hy : 0 ≤ (r.val : Int) ∧ (r.val : Int) < boardHeight)
    (hx : 0 ≤ (c.val : Int) ∧ (c.val : Int) < boardWidth) :
    cellAt b r.val c.val hy hx = b r c := by
  simp [cellAt]

theorem cellAt_of_eq (b : Board) (y x : Int) (hy : 0 ≤ y ∧ y < boardHeight)
    (hx : 0 ≤ x ∧ x < boardWidth) (r : Fin 20) (c : Fin 10) (hr : (r.val : Int) = y)
    (hc : (c.val : Int) = x) : cellAt b y x hy hx = b r c := by
  subst hr; subst hc; exact cellAt_coe b r c hy hx

theorem occupied_iff_cellAt (b : Board) (y x : Int) (hy : 0 ≤ y ∧ y < boardHeight)
    (hx : 0 ≤ x ∧ x < boardWidth) :
    occupied b y x ↔ cellAt b y x hy hx ≠ backgroundColor := by
  constructor
  · rintro ⟨r, c, hr, hc, hne⟩
    rw [cellAt_of_eq b y x hy hx r c hr hc]; exact hne
  · intro hne
    have h1 : y.toNat < 20 := by simp only [boardHeight] at hy; omega
    have h2 : x.toNat < 10 := by simp only [boardWidth] at hx; omega
    exact ⟨⟨y.toNat, h1⟩, ⟨x.toNat, h2⟩, Int.toNat_of_nonneg hy.1,
      Int.toNat_of_nonneg hx.1, hne⟩

theorem blockCollides_iff (g : Game) (block : Block) :
    blockCollides g block = true ↔
      (g.currentX + block.x).val < 0 ∨ (g.currentX + block.x).val ≥ 10 ∨
        (g.currentY + block.y).val ≥ 20 ∨
        ((g.currentY + block.y).val ≥ 0 ∧
          occupied g.board (g.currentY + block.y).val (g.currentX + block.x).val) := by
  unfold blockCollides
  simp only []
  split_ifs with h hy hc
  · simp only [true_iff]
    rcases h with h | h | h
    · exact Or.inl h
    · exact Or.inr (Or.inl h)
    · exact Or.inr (Or.inr (Or.inl h))
  · simp only [true_iff]
    exact Or.inr (Or.inr (Or.inr ⟨hy, (occupied_iff_cellAt _ _ _ _ _).2 hc⟩))
  · simp only [Bool.false_eq_true, false_iff]
    rintro (h1 | h1 | h1 | ⟨_, h1⟩)
    · exact h (Or.inl h1)
    · exact h (Or.inr (Or.inl h1))
    · exact h (Or.inr (Or.inr h1))
    · exact hc ((occupied_iff_cellAt _ _ _ _ _).1 h1)
  · simp only [Bool.false_eq_true, false_iff]
    rintro (h1 | h1 | h1 | ⟨h1, _⟩)
    · exact h (Or.inl h1)
    · exact h (Or.inr (Or.inl h1))
    · exact h (Or.inr (Or.inr h1))
    · exact hy h1

theorem collision_iff_exists (g : Game) :
    collision g = true ↔ ∃ i : Fin 4, blockCollides g (g.currentPiece.blocks i) = true := by
  unfold collision
  rw [List.any_eq_true]
  constructor
  · rintro ⟨i, _, h⟩; exact ⟨i, h⟩
  · rintro ⟨i, h⟩; exact ⟨i, mem_blockIdx i, h⟩

theorem collision_eq_true_iff (g : Game) :
    collision g = true ↔
      ∃ i : Fin 4, absX g i < 0 ∨ absX g i ≥ 10 ∨ absY g i ≥ 20 ∨
        (absY g i ≥ 0 ∧ occupied g.board (absY g i) (absX g i)) := by
  rw [collision_iff_exists]
  constructor
  · rintro ⟨i, h⟩; exact ⟨i, (blockCollides_iff g _).1 h⟩
  · rintro ⟨i, h⟩; exact ⟨i, (blockCollides_iff g _).2 h⟩

theorem blockCollides_above (g : Game) (i : Fin 4) (hy : absY g i < 0) (hx0 : 0 ≤ absX g i)
    (hx1 : absX g i < 10) : blockCollides g (g.currentPiece.blocks i) = false := by
  rw [← Bool.not_eq_true, blockCollides_iff]
  unfold absX absY at *
  rintro (h | h | h | ⟨h, _⟩) <;> omega

theorem collision_false_of_above (g : Game)
    (hall : ∀ i : Fin 4, absY g i < 0 ∧ 0 ≤ absX g i ∧ absX g i < 10) :
    collision g = false := by
  rw [← Bool.not_eq_true, collision_iff_exists]
  rintro ⟨i, h⟩
  rw [blockCollides_above g i (hall i).1 (hall i).2.1 (hall i).2.2] at h
  exact Bool.false_ne_true h

theorem not_collision_iff (g : Game) :
    collision g = false ↔ InBounds g ∧ NoOverlap g := by
  rw [← Bool.not_eq_true, collision_eq_true_iff]
  unfold InBounds NoOverlap
  constructor
  · intro h
    constructor
    · intro i
      by_contra hc
      apply h
      refine ⟨i, ?_⟩
      by_cases h1 : absX g i < 0
      · exact Or.inl h1
      by_cases h2 : absX g i ≥ 10
      · exact Or.inr (Or.inl h2)
      refine Or.inr (Or.inr (Or.inl ?_))
      by_contra h3
      exact hc ⟨by omega, by omega, by omega⟩
    · intro i hy hocc
      exact h ⟨i, Or.inr (Or.inr (Or.inr ⟨hy, hocc⟩))⟩
  · rintro ⟨hb, hn⟩ ⟨i, hi⟩
    have := hb i
    rcases hi with h1 | h1 | h1 | ⟨h1, h2⟩
    · omega
    · omega
    · omega
    · exact hn i h1 h2

/-! ## Facts about `rotate`, `moveLeft` and `moveRight` -/

theorem foldl_swapBlock (p : Piece) : blockIdx.foldl swapBlock p = transposed p := by
  cases p with
  | mk blocks color =>
    simp only [blockIdx, List.foldl, swapBlock, transposed]
    congr 1
    funext j
    fin_cases j <;> simp

theorem rotate_of_blocked (g : Game)
    (h : collision { g with currentPiece := transposed g.currentPiece } = true) :
    rotate g = g := by
  unfold rotate
  simp only [foldl_swapBlock]
  rw [if_pos h]

theorem rotate_of_free (g : Game)
    (h : collision { g with currentPiece := transposed g.currentPiece } = false) :
    rotate g = { g with currentPiece := transposed g.currentPiece } := by
  unfold rotate
  simp only [foldl_swapBlock]
  rw [if_neg (by simp [h])]

theorem moveLeft_of_free (g : Game)
    (h : collision { g with currentX := g.currentX - 1 } = false) :
    moveLeft g = { g with currentX := g.currentX - 1 } := by
  unfold moveLeft; simp [h]

theorem moveLeft_of_blocked (g : Game)
    (h : collision { g with currentX := g.currentX - 1 } = true) : moveLeft g = g := by
  unfold moveLeft; simp [h, GoInt.sub_add_cancel]

theorem moveRight_of_free (g : Game)
    (h : collision { g with currentX := g.currentX + 1 } = false) :
    moveRight g = { g with currentX := g.currentX + 1 } := by
  unfold moveRight; simp [h]

theorem moveRight_of_blocked (g : Game)
    (h : collision { g with currentX := g.currentX + 1 } = true) : moveRight g = g := by
  unfold moveRight; simp [h, GoInt.add_sub_cancel]

theorem moveLeft_cases (g : Game) :
    (moveLeft g = g) ∨
      (moveLeft g = { g with currentX := g.currentX - 1 } ∧
        collision { g with currentX := g.currentX - 1 } = false) := by
  cases h : collision { g with currentX := g.currentX - 1 }
  · exact Or.inr ⟨moveLeft_of_free g h, rfl⟩
  · exact Or.inl (moveLeft_of_blocked g h)

theorem moveRight_cases (g : Game) :
    (moveRight g = g) ∨
      (moveRight g = { g with currentX := g.currentX + 1 } ∧
        collision { g with currentX := g.currentX + 1 } = false) := by
  cases h : collision { g with currentX := g.currentX + 1 }
  · exact Or.inr ⟨moveRight_of_free g h, rfl⟩
  · exact Or.inl (moveRight_of_blocked g h)

theorem rotate_cases (g : Game) :
    (rotate g = g) ∨
      (rotate g = { g with currentPiece := transposed g.currentPiece } ∧
        collision { g with currentPiece := transposed g.currentPiece } = false) := by
  cases h : collision { g with currentPiece := transposed g.currentPiece }
  · exact Or.inr ⟨rotate_of_free g h, rfl⟩
  · exact Or.inl (rotate_of_blocked g h)

/-! ## Facts about the write loop of `lockPiece` -/

theorem lockBlock_apply (p : Piece) (cx cy : GoInt) (b : Board) (i : Fin 4) (r : Fin 20)
    (c : Fin 10) :
    lockBlock p cx cy b i r c =
      if (cy + (p.blocks i).y).val = r.val ∧ (cx + (p.blocks i).x).val = c.val then p.color
      else b r c := by
  unfold lockBlock
  have := r.isLt
  have := c.isLt
  by_cases h : (cy + (p.blocks i).y).val ≥ 0 ∧ (cy + (p.blocks i).y).val < boardHeight ∧
      (cx + (p.blocks i).x).val ≥ 0 ∧ (cx + (p.blocks i).x).val < boardWidth
  · rw [dif_pos h]
    simp only [setCell]
    by_cases h2 : (cy + (p.blocks i).y).val = r.val ∧ (cx + (p.blocks i).x).val = c.val
    · rw [if_pos h2, if_pos]
      constructor
      · apply Fin.ext; simp only []; omega
      · apply Fin.ext; simp only []; omega
    · rw [if_neg h2, if_neg]
      rintro ⟨e1, e2⟩
      apply h2
      rw [e1, e2]
      simp only []
      omega
  · rw [dif_neg h, if_neg]
    rintro ⟨e1, e2⟩
    apply h
    simp only [boardHeight, boardWidth]
    omega

theorem lockWrite_board (g : Game) (r : Fin 20) (c : Fin 10) :
    (lockWrite g).board r c =
      if ∃ i : Fin 4, absY g i = r.val ∧ absX g i = c.val then g.currentPiece.color
      else g.board r c := by
  simp only [lockWrite, blockIdx, List.foldl, lockBlock_apply, absX, absY]
  by_cases h3 : (g.currentY + (g.currentPiece.blocks 3).y).val = r.val ∧
      (g.currentX + (g.currentPiece.blocks 3).x).val = c.val
  · rw [if_pos h3, if_pos ⟨3, h3⟩]
  rw [if_neg h3]
  by_cases h2 : (g.currentY + (g.currentPiece.blocks 2).y).val = r.val ∧
      (g.currentX + (g.currentPiece.blocks 2).x).val = c.val
  · rw [if_pos h2, if_pos ⟨2, h2⟩]
  rw [if_neg h2]
  by_cases h1 : (g.currentY + (g.currentPiece.blocks 1).y).val = r.val ∧
      (g.currentX + (g.currentPiece.blocks 1).x).val = c.val
  · rw [if_pos h1, if_pos ⟨1, h1⟩]
  rw [if_neg h1]
  by_cases h0 : (g.currentY + (g.currentPiece.blocks 0).y).val = r.val ∧
      (g.currentX + (g.currentPiece.blocks 0).x).val = c.val
  · rw [if_pos h0, if_pos ⟨0, h0⟩]
  rw [if_neg h0, if_neg]
  rintro ⟨i, hi⟩
  fin_cases i
  · exact h0 hi
  · exact h1 hi
  · exact h2 hi
  · exact h3 hi

/-! ## Facts about the scan of `clearLines` -/

theorem rowFull_zeroRow : rowFull zeroRow = true := by decide

theorem clearRow_board_zero (g : Game) (y : Fin 20) : (clearRow g y).board 0 = zeroRow := by
  simp [clearRow, setRow]

theorem clearLinesLoop_diverges : ∀ (fuel : Nat) (y : Int) (hy : y < boardHeight) (g : Game),
    (∃ r : Fin 20, (r.val : Int) ≤ y ∧ rowFull (g.board r) = true) →
      clearLinesLoop fuel y hy g = none := by
  intro fuel
  induction fuel with
  | zero => intro y hy g _; rfl
  | succ n ih =>
    intro y hy g hex
    obtain ⟨r, hr, hfull⟩ := hex
    have hy0 : y ≥ 0 := by omega
    rw [clearLinesLoop, dif_pos hy0]
    split_ifs with hf
    · apply ih
      refine ⟨0, ?_, ?_⟩
      · simp only [Fin.val_zero, Nat.cast_zero]; omega
      · rw [clearRow_board_zero]; exact rowFull_zeroRow
    · apply ih
      refine ⟨r, ?_, hfull⟩
      have hne : r.val ≠ y.toNat := by
        intro heq
        apply hf
        have : r = ⟨y.toNat, by simp only [boardHeight] at hy; omega⟩ := Fin.ext heq
        rw [← this]; exact hfull
      omega

theorem clearLinesLoop_no_full : ∀ (fuel : Nat) (y : Int) (hy : y < boardHeight) (g : Game),
    (∀ r : Fin 20, rowFull (g.board r) = false) → 0 < fuel → y + 1 < fuel →
      clearLinesLoop fuel y hy g = some g := by
  intro fuel
  induction fuel with
  | zero => intro y hy g _ h; omega
  | succ n ih =>
    intro y hy g hno _ hlt
    rw [clearLinesLoop]
    split_ifs with hy0 hf
    · rw [hno] at hf; exact absurd hf Bool.false_ne_true
    · apply ih _ _ _ hno <;> omega
    · rfl

theorem clearLines_no_full (fuel : Nat) (g : Game)
    (hno : ∀ r : Fin 20, rowFull (g.board r) = false) (hfuel : 21 ≤ fuel) :
    clearLines fuel g = some g := by
  unfold clearLines
  apply clearLinesLoop_no_full _ _ _ _ hno
  · omega
  · simp only [boardHeight]; omega

theorem clearLines_diverges (fuel : Nat) (g : Game) (r : Fin 20)
    (hfull : rowFull (g.board r) = true) : clearLines fuel g = none := by
  unfold clearLines
  apply clearLinesLoop_diverges
  refine ⟨r, ?_, hfull⟩
  have := r.isLt
  simp only [boardHeight]; omega

/-! ## Facts about `lockPiece`, `moveDown` and `spawnPiece` -/

theorem lockPiece_eq (fuel : Nat) (r : Fin 7) (g : Game) :
    lockPiece fuel r g = (clearLines fuel (lockWrite g)).map (spawnPiece r) := by
  unfold lockPiece
  cases clearLines fuel (lockWrite g) <;> rfl

theorem moveDown_of_free (fuel : Nat) (r : Fin 7) (g : Game)
    (h : collision { g with currentY := g.currentY + 1 } = false) :
    moveDown fuel r g = some ({ g with currentY := g.currentY + 1 }, true) := by
  unfold moveDown
  simp [h]

theorem moveDown_of_blocked (fuel : Nat) (r : Fin 7) (g : Game)
    (h : collision { g with currentY := g.currentY + 1 } = true) :
    moveDown fuel r g = (lockPiece fuel r g).map (fun g1 => (g1, false)) := by
  have hback : ({ g with currentY := g.currentY + 1 - 1 } : Game) = g := by
    rw [GoInt.add_sub_cancel]
  unfold moveDown
  simp only [h, if_true, hback]
  cases lockPiece fuel r g <;> rfl

theorem moveDown_cases (fuel : Nat) (r : Fin 7) (g g1 : Game) (moved : Bool)
    (h : moveDown fuel r g = some (g1, moved)) :
    (g1 = { g with currentY := g.currentY + 1 } ∧
        collision { g with currentY := g.currentY + 1 } = false) ∨
      (∃ g2 : Game, g1 = spawnPiece r g2) := by
  cases hc : collision { g with currentY := g.currentY + 1 }
  · left
    rw [moveDown_of_free fuel r g hc] at h
    simp only [Option.some.injEq, Prod.mk.injEq] at h
    exact ⟨h.1.symm, rfl⟩
  · right
    rw [moveDown_of_blocked fuel r g hc, lockPiece_eq] at h
    cases hcl : clearLines fuel (lockWrite g) with
    | none => rw [hcl] at h; simp at h
    | some g2 =>
      rw [hcl] at h
      simp only [Option.map_some', Option.some.injEq, Prod.mk.injEq] at h
      exact ⟨g2, h.1.symm⟩

theorem spawnPiece_eq (r : Fin 7) (g : Game) :
    spawnPiece r g =
      if collision (spawned r g) then { spawned r g with gameOver := true } else spawned r g :=
  rfl

theorem spawnPiece_fields (r : Fin 7) (g : Game) :
    (spawnPiece r g).board = g.board ∧ (spawnPiece r g).currentPiece = pieces r ∧
    (spawnPiece r g).currentX = 3 ∧ (spawnPiece r g).currentY = -1 ∧
    (spawnPiece r g).score = g.score := by
  have h3 : GoInt.ofInt (boardWidth / 2 - 2) = 3 := by decide
  rw [spawnPiece_eq]
  split_ifs <;> exact ⟨rfl, rfl, h3, rfl, rfl⟩

theorem spawnPiece_inBounds (r : Fin 7) (g : Game) : InBounds (spawnPiece r g) := by
  obtain ⟨hb, hp, hx, hy, hs⟩ := spawnPiece_fields r g
  intro i
  unfold absX absY
  rw [hp, hx, hy]
  clear hb hp hx hy hs
  revert i
  revert r
  decide

theorem spawnPiece_live (r : Fin 7) (g : Game) (h : (spawnPiece r g).gameOver = false) :
    collision (spawnPiece r g) = false := by
  rw [spawnPiece_eq] at h ⊢
  by_cases hc : collision (spawned r g) = true
  · rw [if_pos hc] at h
    exact absurd h (by simp)
  · rw [if_neg hc]
    simpa using hc

theorem spawned_collides (g : Game) (h : ∀ c : Fin 10, g.board 0 c ≠ backgroundColor)
    (r : Fin 7) (i : Fin 4) (hy : ((-1 : GoInt) + ((pieces r).blocks i).y).val = 0)
    (hx0 : 0 ≤ (GoInt.ofInt (boardWidth / 2 - 2) + ((pieces r).blocks i).x).val)
    (hx1 : (GoInt.ofInt (boardWidth / 2 - 2) + ((pieces r).blocks i).x).val < 10) :
    collision (spawned r g) = true := by
  rw [collision_iff_exists]
  refine ⟨i, ?_⟩
  rw [blockCollides_iff]
  refine Or.inr (Or.inr (Or.inr ?_))
  show ((-1 : GoInt) + ((pieces r).blocks i).y).val ≥ 0 ∧
    occupied g.board ((-1 : GoInt) + ((pieces r).blocks i).y).val
      (GoInt.ofInt (boardWidth / 2 - 2) + ((pieces r).blocks i).x).val
  rw [hy]
  refine ⟨le_refl _, ?_⟩
  have hlt : (GoInt.ofInt (boardWidth / 2 - 2) + ((pieces r).blocks i).x).val.toNat < 10 := by
    omega
  exact ⟨0, ⟨_, hlt⟩, rfl, Int.toNat_of_nonneg hx0, h _⟩

theorem spawned_I_free (g : Game) : collision (spawned 0 g) = false := by
  apply collision_false_of_above
  have h : ∀ i : Fin 4, ((-1 : GoInt) + ((pieces 0).blocks i).y).val < 0 ∧
      0 ≤ (GoInt.ofInt (boardWidth / 2 - 2) + ((pieces 0).blocks i).x).val ∧
      (GoInt.ofInt (boardWidth / 2 - 2) + ((pieces 0).blocks i).x).val < 10 := by decide
  exact h

/-! ## Facts about reachable sessions -/

theorem reachable_runCalls : ∀ (cs : List Call) (g g1 : Game),
    Reachable g → runCalls cs g = some g1 → Reachable g1 := by
  intro cs
  induction cs with
  | nil =>
    intro g g1 hr h
    simp only [runCalls, Option.some.injEq] at h
    rw [← h]; exact hr
  | cons c t ih =>
    intro g g1 hr h
    cases c with
    | left => exact ih _ _ (Reachable.left hr) h
    | right => exact ih _ _ (Reachable.right hr) h
    | rot => exact ih _ _ (Reachable.rot hr) h
    | down r =>
      simp only [runCalls] at h
      cases hm : moveDown 21 r g with
      | none => rw [hm] at h; simp at h
      | some p =>
        rw [hm] at h
        exact ih _ _ (Reachable.down 21 r hr hm) h

theorem reachable_inBounds (g : Game) (h : Reachable g) : InBounds g := by
  induction h with
  | init now r => exact spawnPiece_inBounds r _
  | @left g0 _ ih =>
    rcases moveLeft_cases g0 with h | ⟨h, hc⟩
    · rw [h]; exact ih
    · rw [h]; exact ((not_collision_iff _).1 hc).1
  | @right g0 _ ih =>
    rcases moveRight_cases g0 with h | ⟨h, hc⟩
    · rw [h]; exact ih
    · rw [h]; exact ((not_collision_iff _).1 hc).1
  | @rot g0 _ ih =>
    rcases rotate_cases g0 with h | ⟨h, hc⟩
    · rw [h]; exact ih
    · rw [h]; exact ((not_collision_iff _).1 hc).1
  | down fuel r _ hm ih =>
    rcases moveDown_cases fuel r _ _ _ hm with ⟨h, hc⟩ | ⟨g2, h⟩
    · rw [h]; exact ((not_collision_iff _).1 hc).1
    · rw [h]; exact spawnPiece_inBounds r g2

theorem reachable_live_legal (g : Game) (h : Reachable g) :
    g.gameOver = false → collision g = false := by
  induction h with
  | init now r => exact spawnPiece_live r _
  | @left g0 _ ih =>
    rcases moveLeft_cases g0 with h | ⟨h, hc⟩
    · rw [h]; exact ih
    · rw [h]; exact fun _ => hc
  | @right g0 _ ih =>
    rcases moveRight_cases g0 with h | ⟨h, hc⟩
    · rw [h]; exact ih
    · rw [h]; exact fun _ => hc
  | @rot g0 _ ih =>
    rcases rotate_cases g0 with h | ⟨h, hc⟩
    · rw [h]; exact ih
    · rw [h]; exact fun _ => hc
  | down fuel r _ hm ih =>
    rcases moveDown_cases fuel r _ _ _ hm with ⟨h, hc⟩ | ⟨g2, h⟩
    · rw [h]; exact fun _ => hc
    · rw [h]; exact spawnPiece_live r g2

theorem tower_eval :
    (runCalls towerCalls (NewGame 0 0)).any (fun g =>
      decide (g.gameOver = true ∧ g.currentX = 3 ∧ g.currentY = -1 ∧
        (g.currentPiece.blocks 3).x = 0 ∧ (g.currentPiece.blocks 3).y = 1 ∧
        g.board 0 3 = blockColors 0)) = true := by
  decide!

theorem rest_eval :
    (runCalls restCalls (NewGame 0 0)).any (fun g =>
      decide (g.gameOver = false ∧ g.currentX = 3 ∧ g.currentY = 12 ∧
        g.board 16 3 = blockColors 0)) = true := by
  decide!

/-! ## The claims -/

/-- C1: `collision` returns `true` exactly when one of the four absolute cells
(anchor plus offset, added as Go adds two `int`s) has its column below 0 or at
least 10, or its row at least 20, or its row at least 0 and lies on a board
cell that differs from the background colour. A cell with negative row and
column in `[0, 10)` never takes one of the two `return true` branches, and a
piece all of whose cells are such does not collide. The column and row of a
cell are the integer sums of anchor and offset whenever these sums are in the
range of `int`. `collision` is a function of the session into `Bool`: it
yields no new session. -/
theorem collision_characterisation (g : Game) :
    (collision g = true ↔
      ∃ i : Fin 4, absX g i < 0 ∨ absX g i ≥ 10 ∨ absY g i ≥ 20 ∨
        (absY g i ≥ 0 ∧ occupied g.board (absY g i) (absX g i))) ∧
    (∀ i : Fin 4, absY g i < 0 → 0 ≤ absX g i → absX g i < 10 →
      blockCollides g (g.currentPiece.blocks i) = false) ∧
    ((∀ i : Fin 4, absY g i < 0 ∧ 0 ≤ absX g i ∧ absX g i < 10) → collision g = false) ∧
    (∀ i : Fin 4,
      -9223372036854775808 ≤ g.currentX.val + (g.currentPiece.blocks i).x.val →
      g.currentX.val + (g.currentPiece.blocks i).x.val < 9223372036854775808 →
        absX g i = g.currentX.val + (g.currentPiece.blocks i).x.val) ∧
    (∀ i : Fin 4,
      -9223372036854775808 ≤ g.currentY.val + (g.currentPiece.blocks i).y.val →
      g.currentY.val + (g.currentPiece.blocks i).y.val < 9223372036854775808 →
        absY g i = g.currentY.val + (g.currentPiece.blocks i).y.val) :=
  ⟨collision_eq_true_iff g, blockCollides_above g, collision_false_of_above g,
    fun _ h1 h2 => wrap64_of_range _ h1 h2, fun _ h1 h2 => wrap64_of_range _ h1 h2⟩

/-- Witness for C1: the I piece lying in row -1 of a board whose two top rows
are filled does not collide; and a piece whose anchor column and column offsets
are all `-2^63`, so that every cell wraps around to column 0, lying in row -1,
does not collide either. -/
theorem collision_characterisation_witness :
    collision (spawned 0 topFilledGame) = false ∧
    (∀ i : Fin 4, absX farGame i = 0) ∧ collision farGame = false :=
  ⟨(collision_characterisation (spawned 0 topFilledGame)).2.2.1 (by decide),
    by decide, (collision_characterisation farGame).2.2.1 (by decide)⟩

/-- C2: on the board whose row 19 is filled except for column 3, with an upright
I piece resting in column 3, the written board has row 19 full and no other row
full; the first clear adds 100 and leaves row 0 holding the zero colour, which
differs from the background colour in every column; and `lockPiece` returns for
no amount of fuel. -/
theorem lockPiece_line_clear_never_returns :
    (∀ c : Fin 10, bottomGapGame.board 19 c ≠ backgroundColor ↔ c ≠ 3) ∧
    (∀ r : Fin 20, rowFull (bottomGapGame.board r) = false) ∧
    (∀ r : Fin 20, rowFull ((lockWrite bottomGapGame).board r) = decide (r = 19)) ∧
    (clearRow (lockWrite bottomGapGame) 19).score = bottomGapGame.score + 100 ∧
    (∀ c : Fin 10, (clearRow (lockWrite bottomGapGame) 19).board 0 c = zeroColor) ∧
    zeroColor ≠ backgroundColor ∧
    ∀ (fuel : Nat) (r : Fin 7), lockPiece fuel r bottomGapGame = none := by
  refine ⟨by decide, by decide, by decide, by decide, by decide, by decide, ?_⟩
  intro fuel r
  rw [lockPiece_eq, clearLines_diverges fuel _ 19 (by decide)]
  rfl

/-- C3: on the board whose row 19 is full and whose other rows are empty,
`clearLines` returns for no amount of fuel: the scan never reaches its end. -/
theorem clearLines_full_row_never_returns :
    rowFull (bottomFullGame.board 19) = true ∧
    (∀ r : Fin 20, r ≠ 19 → ∀ c : Fin 10, bottomFullGame.board r c = backgroundColor) ∧
    ∀ fuel : Nat, clearLines fuel bottomFullGame = none :=
  ⟨by decide, by decide, fun fuel => clearLines_diverges fuel _ 19 (by decide)⟩

/-- C4: in every session reachable from `NewGame` by calls of `moveLeft`,
`moveRight`, `moveDown` and `rotate`, whatever shapes are drawn, each of the
four absolute cells of the active piece has its column in `[0, 10)` and its row
below 20. -/
theorem reachable_in_bounds (g : Game) (h : Reachable g) :
    ∀ i : Fin 4, 0 ≤ absX g i ∧ absX g i < 10 ∧ absY g i < 20 :=
  reachable_inBounds g h

/-- Witness for C4: the session after the 55 calls of `towerCalls`, which are
five locks and five spawns, is in bounds. -/
theorem reachable_in_bounds_witness :
    ∃ g : Game, runCalls towerCalls (NewGame 0 0) = some g ∧ InBounds g := by
  have h := tower_eval
  cases hr : runCalls towerCalls (NewGame 0 0) with
  | none => rw [hr] at h; simp at h
  | some g =>
    exact ⟨g, rfl, reachable_in_bounds g (reachable_runCalls _ _ _ (Reachable.init 0 0) hr)⟩

/-- C5, amended: in every session reachable from `NewGame` by calls of
`moveLeft`, `moveRight`, `moveDown` and `rotate` whose game-over flag is false,
no cell of the active piece with row at least 0 lies on a non-empty board
cell. -/
theorem reachable_live_no_overlap (g : Game) (h : Reachable g)
    (hlive : g.gameOver = false) :
    ∀ i : Fin 4, absY g i ≥ 0 → ¬ occupied g.board (absY g i) (absX g i) :=
  ((not_collision_iff g).1 (reachable_live_legal g h hlive)).2

/-- Witness for C5 as amended: after one upright I piece has been locked in
column 3, the next one is lowered until it rests on it (rows 12 to 15 over the
locked rows 16 to 19); that session is live and has no overlap. -/
theorem reachable_live_no_overlap_witness :
    ∃ g : Game, runCalls restCalls (NewGame 0 0) = some g ∧ g.gameOver = false ∧
      g.currentX = 3 ∧ g.currentY = 12 ∧ g.board 16 3 ≠ backgroundColor ∧ NoOverlap g := by
  have h := rest_eval
  cases hr : runCalls restCalls (NewGame 0 0) with
  | none => rw [hr] at h; simp at h
  | some g =>
    rw [hr] at h
    simp only [Option.any_some, decide_eq_true_eq] at h
    obtain ⟨h1, h2, h3, h4⟩ := h
    exact ⟨g, rfl, h1, h2, h3, by rw [h4]; decide,
      reachable_live_no_overlap g (reachable_runCalls _ _ _ (Reachable.init 0 0) hr) h1⟩

/-- Counterexample to C5 as stated: after five upright I pieces have been
stacked in column 3 up to row 0, the J piece drawn next spawns with its cell
`(0, 1)` at row 0, column 3, on the top of the stack. That session is
reachable, its flag is set, and the cell overlaps a non-empty board cell. -/
theorem tower_spawn_overlaps :
    ∃ g : Game, runCalls towerCalls (NewGame 0 0) = some g ∧ Reachable g ∧
      g.gameOver = true ∧ absY g 3 = 0 ∧ absX g 3 = 3 ∧
      occupied g.board (absY g 3) (absX g 3) ∧ ¬ NoOverlap g := by
  have h := tower_eval
  cases hr : runCalls towerCalls (NewGame 0 0) with
  | none => rw [hr] at h; simp at h
  | some g =>
    rw [hr] at h
    simp only [Option.any_some, decide_eq_true_eq] at h
    obtain ⟨h1, h2, h3, h4, h5, h6⟩ := h
    have hy : absY g 3 = 0 := by unfold absY; rw [h3, h5]; rfl
    have hx : absX g 3 = 3 := by unfold absX; rw [h2, h4]; rfl
    have hocc : occupied g.board (absY g 3) (absX g 3) :=
      ⟨0, 3, by rw [hy]; rfl, by rw [hx]; rfl, by rw [h6]; decide⟩
    refine ⟨g, rfl, reachable_runCalls _ _ _ (Reachable.init 0 0) hr, h1, hy, hx, hocc, ?_⟩
    intro hno
    exact hno 3 (by rw [hy]) hocc

/-- C6: if the piece with every offset `(x, y)` replaced by `(y, x)` collides at
the current anchor, `rotate` returns the session it was given, unchanged in
every field; otherwise it returns the session with exactly the transposed
offsets, the colour and every other field unchanged. -/
theorem rotate_atomic (g : Game) :
    (collision { g with currentPiece := transposed g.currentPiece } = true → rotate g = g) ∧
    (collision { g with currentPiece := transposed g.currentPiece } = false →
      rotate g = { g with currentPiece := transposed g.currentPiece } ∧
      (∀ i : Fin 4, (rotate g).currentPiece.blocks i =
        ⟨(g.currentPiece.blocks i).y, (g.currentPiece.blocks i).x⟩) ∧
      (rotate g).currentPiece.color = g.currentPiece.color) := by
  refine ⟨rotate_of_blocked g, fun h => ?_⟩
  rw [rotate_of_free g h]
  exact ⟨rfl, fun _ => rfl, rfl⟩

/-- Witness for C6: an I piece lying in row 17 cannot stand upright (it would
reach row 20) and is left as it was; an O piece in the open is transposed. -/
theorem rotate_atomic_witness :
    rotate lowGame = lowGame ∧
    rotate leftWallGame = { leftWallGame with currentPiece := transposed (pieces 1) } :=
  ⟨(rotate_atomic lowGame).1 (by decide), ((rotate_atomic leftWallGame).2 (by decide)).1⟩

/-- C7: `moveLeft` returns the session with `currentX` decreased by 1 when the
piece shifted one column to the left does not collide, and the session it was
given otherwise; `moveRight` does the same with `currentX` increased by 1. In
every case the board, the piece, `currentY`, the score, the game-over flag and
the two time fields are unchanged. -/
theorem moveLeft_moveRight_effect (g : Game) :
    (collision { g with currentX := g.currentX - 1 } = false →
      moveLeft g = { g with currentX := g.currentX - 1 }) ∧
    (collision { g with currentX := g.currentX - 1 } = true → moveLeft g = g) ∧
    (collision { g with currentX := g.currentX + 1 } = false →
      moveRight g = { g with currentX := g.currentX + 1 }) ∧
    (collision { g with currentX := g.currentX + 1 } = true → moveRight g = g) ∧
    ((moveLeft g).board = g.board ∧ (moveLeft g).currentPiece = g.currentPiece ∧
      (moveLeft g).currentY = g.currentY ∧ (moveLeft g).score = g.score ∧
      (moveLeft g).gameOver = g.gameOver ∧ (moveLeft g).lastMoveTime = g.lastMoveTime ∧
      (moveLeft g).moveInternal = g.moveInternal) ∧
    ((moveRight g).board = g.board ∧ (moveRight g).currentPiece = g.currentPiece ∧
      (moveRight g).currentY = g.currentY ∧ (moveRight g).score = g.score ∧
      (moveRight g).gameOver = g.gameOver ∧ (moveRight g).lastMoveTime = g.lastMoveTime ∧
      (moveRight g).moveInternal = g.moveInternal) := by
  refine ⟨moveLeft_of_free g, moveLeft_of_blocked g, moveRight_of_free g,
    moveRight_of_blocked g, ?_, ?_⟩
  · rcases moveLeft_cases g with h | ⟨h, _⟩ <;> rw [h] <;>
      exact ⟨rfl, rfl, rfl, rfl, rfl, rfl, rfl⟩
  · rcases moveRight_cases g with h | ⟨h, _⟩ <;> rw [h] <;>
      exact ⟨rfl, rfl, rfl, rfl, rfl, rfl, rfl⟩

/-- Witness for C7: against the left wall `moveLeft` is rejected and `moveRight`
is committed; against the right wall it is the other way round. -/
theorem moveLeft_moveRight_effect_witness :
    moveLeft leftWallGame = leftWallGame ∧
    moveRight leftWallGame = { leftWallGame with currentX := 0 + 1 } ∧
    moveRight rightWallGame = rightWallGame ∧
    moveLeft rightWallGame = { rightWallGame with currentX := 8 - 1 } :=
  ⟨(moveLeft_moveRight_effect leftWallGame).2.1 (by decide),
    (moveLeft_moveRight_effect leftWallGame).2.2.1 (by decide),
    (moveLeft_moveRight_effect rightWallGame).2.2.2.1 (by decide),
    (moveLeft_moveRight_effect rightWallGame).1 (by decide)⟩

/-- C8: on the board whose row 19 is filled except for column 3, with an upright
I piece resting in column 3 on the floor, the piece shifted one row down
collides, so `moveDown` takes its lock branch; the written board has row 19
full, and `moveDown` returns for no amount of fuel: it never returns `false`. -/
theorem moveDown_blocked_never_returns :
    collision { bottomGapGame with currentY := bottomGapGame.currentY + 1 } = true ∧
    rowFull ((lockWrite bottomGapGame).board 19) = true ∧
    (∀ (fuel : Nat) (r : Fin 7), lockPiece fuel r bottomGapGame = none) ∧
    ∀ (fuel : Nat) (r : Fin 7), moveDown fuel r bottomGapGame = none := by
  have hl : ∀ (fuel : Nat) (r : Fin 7), lockPiece fuel r bottomGapGame = none := by
    intro fuel r
    rw [lockPiece_eq, clearLines_diverges fuel _ 19 (by decide)]
    rfl
  refine ⟨by decide, by decide, hl, ?_⟩
  intro fuel r
  rw [moveDown_of_blocked fuel r bottomGapGame (by decide), hl]
  rfl

/-- C9: the board `lockPiece` hands to `clearLines` holds the piece's colour at
every board cell that is an absolute cell of the active piece (anchor plus
offset, added as Go adds two `int`s), and the old content at every other cell;
cells of the piece with row below 0 (or outside the board in any other way)
are written nowhere, and no other field of the session changes. With anchor
column and column offsets all `-2^63` and the piece in row 5, the sums wrap
around to column 0 and the cell at row 5, column 0 is written. -/
theorem lockWrite_frame (g : Game) :
    (∀ (r : Fin 20) (c : Fin 10),
      (lockWrite g).board r c =
        if ∃ i : Fin 4, absY g i = r.val ∧ absX g i = c.val then g.currentPiece.color
        else g.board r c) ∧
    (lockWrite g).currentPiece = g.currentPiece ∧ (lockWrite g).currentX = g.currentX ∧
    (lockWrite g).currentY = g.currentY ∧ (lockWrite g).score = g.score ∧
    (lockWrite g).gameOver = g.gameOver ∧ (lockWrite g).lastMoveTime = g.lastMoveTime ∧
    (lockWrite g).moveInternal = g.moveInternal ∧
    (lockWrite farLockGame).board 5 0 = farLockGame.currentPiece.color ∧
    (∀ c : Fin 10, c ≠ 0 → (lockWrite farLockGame).board 5 c = backgroundColor) :=
  ⟨lockWrite_board g, rfl, rfl, rfl, rfl, rfl, rfl, rfl, by decide, by decide⟩

/-- C10, amended: on a board whose row 0 is non-empty in every column,
`spawnPiece` leaves the board as it was for each of the seven shapes; it sets
the game-over flag for the six shapes O, T, L, J, S, Z; for the I shape, whose
four cells all spawn in row -1, the piece does not collide and the flag is left
as it was. -/
theorem spawnPiece_filled_top (g : Game) (h : ∀ c : Fin 10, g.board 0 c ≠ backgroundColor)
    (r : Fin 7) :
    (spawnPiece r g).board = g.board ∧
    (r ≠ 0 → (spawnPiece r g).gameOver = true) ∧
    (r = 0 → collision (spawnPiece r g) = false ∧ (spawnPiece r g).gameOver = g.gameOver) := by
  refine ⟨(spawnPiece_fields r g).1, ?_, ?_⟩
  · intro hr
    have hcol : collision (spawned r g) = true := by
      fin_cases r
      · exact absurd rfl hr
      · exact spawned_collides g h 1 2 (by decide) (by decide) (by decide)
      · exact spawned_collides g h 2 3 (by decide) (by decide) (by decide)
      · exact spawned_collides g h 3 3 (by decide) (by decide) (by decide)
      · exact spawned_collides g h 4 3 (by decide) (by decide) (by decide)
      · exact spawned_collides g h 5 2 (by decide) (by decide) (by decide)
      · exact spawned_collides g h 6 2 (by decide) (by decide) (by decide)
    rw [spawnPiece_eq, if_pos hcol]
  · intro hr
    subst hr
    have hfree := spawned_I_free g
    rw [spawnPiece_eq, if_neg (by simp [hfree])]
    exact ⟨hfree, rfl⟩

/-- Witness for C10 as amended: the O piece spawned over two filled top rows
ends the game and leaves the board alone. -/
theorem spawnPiece_filled_top_witness :
    (spawnPiece 1 topFilledGame).board = topFilledGame.board ∧
    (spawnPiece 1 topFilledGame).gameOver = true :=
  ⟨(spawnPiece_filled_top topFilledGame (by decide) 1).1,
    (spawnPiece_filled_top topFilledGame (by decide) 1).2.1 (by decide)⟩

/-- Counterexample to C10 as stated: with the two top rows filled in every
column, spawning the I piece (draw 0) leaves the game-over flag false. -/
theorem spawn_I_over_filled_top :
    (∀ c : Fin 10, topFilledGame.board 0 c ≠ backgroundColor) ∧
    (∀ c : Fin 10, topFilledGame.board 1 c ≠ backgroundColor) ∧
    topFilledGame.gameOver = false ∧
    (spawnPiece 0 topFilledGame).gameOver = false := by
  decide

/-! ## Facts about the game-over flag -/

theorem moveLeft_gameOver (g : Game) : (moveLeft g).gameOver = g.gameOver := by
  rcases moveLeft_cases g with h | ⟨h, _⟩ <;> rw [h]

theorem moveRight_gameOver (g : Game) : (moveRight g).gameOver = g.gameOver := by
  rcases moveRight_cases g with h | ⟨h, _⟩ <;> rw [h]

theorem rotate_gameOver (g : Game) : (rotate g).gameOver = g.gameOver := by
  rcases rotate_cases g with h | ⟨h, _⟩ <;> rw [h]

theorem spawnPiece_keeps_over (r : Fin 7) (g : Game) (h : g.gameOver = true) :
    (spawnPiece r g).gameOver = true := by
  rw [spawnPiece_eq]
  split_ifs
  · rfl
  · exact h

theorem clearRow_gameOver (g : Game) (y : Fin 20) : (clearRow g y).gameOver = g.gameOver :=
  rfl

theorem clearLinesLoop_gameOver : ∀ (fuel : Nat) (y : Int) (hy : y < boardHeight)
    (g g1 : Game), clearLinesLoop fuel y hy g = some g1 → g1.gameOver = g.gameOver := by
  intro fuel
  induction fuel with
  | zero => intro y hy g g1 h; simp [clearLinesLoop] at h
  | succ n ih =>
    intro y hy g g1 h
    rw [clearLinesLoop] at h
    split_ifs at h with hy0 hf
    · rw [ih _ _ _ _ h, clearRow_gameOver]
    · exact ih _ _ _ _ h
    · simp only [Option.some.injEq] at h
      rw [← h]

theorem clearLines_gameOver (fuel : Nat) (g g1 : Game) (h : clearLines fuel g = some g1) :
    g1.gameOver = g.gameOver :=
  clearLinesLoop_gameOver fuel _ _ g g1 h

theorem lockPiece_some (fuel : Nat) (r : Fin 7) (g g1 : Game)
    (h : lockPiece fuel r g = some g1) :
    ∃ g2 : Game, clearLines fuel (lockWrite g) = some g2 ∧ g1 = spawnPiece r g2 := by
  rw [lockPiece_eq] at h
  cases hcl : clearLines fuel (lockWrite g) with
  | none => rw [hcl] at h; simp at h
  | some g2 =>
    rw [hcl] at h
    simp only [Option.map_some', Option.some.injEq] at h
    exact ⟨g2, rfl, h.symm⟩

theorem lockPiece_keeps_over (fuel : Nat) (r : Fin 7) (g g1 : Game)
    (hover : g.gameOver = true) (h : lockPiece fuel r g = some g1) : g1.gameOver = true := by
  obtain ⟨g2, hcl, rfl⟩ := lockPiece_some fuel r g g1 h
  apply spawnPiece_keeps_over
  rw [clearLines_gameOver fuel _ _ hcl]
  exact hover

theorem moveDown_some (fuel : Nat) (r : Fin 7) (g g1 : Game) (moved : Bool)
    (h : moveDown fuel r g = some (g1, moved)) :
    (moved = true ∧ g1 = { g with currentY := g.currentY + 1 } ∧
        collision { g with currentY := g.currentY + 1 } = false) ∨
      (moved = false ∧ lockPiece fuel r g = some g1 ∧
        collision { g with currentY := g.currentY + 1 } = true) := by
  cases hc : collision { g with currentY := g.currentY + 1 }
  · left
    rw [moveDown_of_free fuel r g hc] at h
    simp only [Option.some.injEq, Prod.mk.injEq] at h
    exact ⟨h.2.symm, h.1.symm, rfl⟩
  · right
    rw [moveDown_of_blocked fuel r g hc] at h
    cases hl : lockPiece fuel r g with
    | none => rw [hl] at h; simp at h
    | some g2 =>
      rw [hl] at h
      simp only [Option.map_some', Option.some.injEq, Prod.mk.injEq] at h
      exact ⟨h.2.symm, by rw [h.1], rfl⟩

theorem moveDown_keeps_over (fuel : Nat) (r : Fin 7) (g g1 : Game) (moved : Bool)
    (hover : g.gameOver = true) (h : moveDown fuel r g = some (g1, moved)) :
    g1.gameOver = true := by
  rcases moveDown_some fuel r g g1 moved h with ⟨_, h1, _⟩ | ⟨_, h1, _⟩
  · rw [h1]; exact hover
  · exact lockPiece_keeps_over fuel r g g1 hover h1

theorem Update_of_over (fuel : Nat) (t : Tick) (g : Game) (h : g.gameOver = true) :
    Update fuel t g = some (g, 0) := by
  unfold Update
  rw [if_pos h]

theorem lockPiece_no_full (fuel : Nat) (r : Fin 7) (g : Game)
    (hno : ∀ y : Fin 20, rowFull ((lockWrite g).board y) = false) (hfuel : 21 ≤ fuel) :
    lockPiece fuel r g = some (spawnPiece r (lockWrite g)) := by
  rw [lockPiece_eq, clearLines_no_full fuel _ hno hfuel]
  rfl

/-! ## Facts about `Update` -/

theorem Update_fall (fuel : Nat) (t : Tick) (g : Game) (hlive : g.gameOver = false)
    (hl : t.keyLeft = false) (hr : t.keyRight = false) (hd : t.keyDown = false)
    (hu : t.keyUp = false) (hdue : t.clock - g.lastMoveTime ≥ g.moveInternal) :
    Update fuel t g =
      match moveDown fuel (t.draw 0) g with
      | none => none
      | some (g1, true) => some ({ g1 with lastMoveTime := t.now }, 0)
      | some (g1, false) =>
        some ({ spawnPiece (t.draw 1) g1 with lastMoveTime := t.now }, 2) := by
  unfold Update moveDownTick
  simp only [hlive, hl, hr, hd, hu, Bool.false_eq_true, if_false, hdue, if_true]
  cases hm : moveDown fuel (t.draw 0) g with
  | none => rfl
  | some p =>
    obtain ⟨g1, moved⟩ := p
    cases moved <;> simp

/-! ## Facts about repeated calls -/

theorem moveLeft_at_wall (g : Game) (h : ∃ i : Fin 4, absX g i = 0) : moveLeft g = g := by
  apply moveLeft_of_blocked
  rw [collision_eq_true_iff]
  obtain ⟨i, hi⟩ := h
  refine ⟨i, Or.inl ?_⟩
  unfold absX at hi ⊢
  show (g.currentX - 1 + (g.currentPiece.blocks i).x).val < 0
  have := g.currentX.lo
  have := g.currentX.hi
  have := (g.currentPiece.blocks i).x.lo
  have := (g.currentPiece.blocks i).x.hi
  rw [GoInt.add_val] at hi
  rw [GoInt.add_val, GoInt.sub_val, GoInt.lit_val]
  unfold wrap64 at hi ⊢
  push_cast
  omega

theorem transposed_transposed (p : Piece) : transposed (transposed p) = p := rfl

theorem rotate_rotate (g : Game) (h : collision g = false) : rotate (rotate g) = g := by
  rcases rotate_cases g with h1 | ⟨h1, hc⟩
  · rw [h1, h1]
  · rw [h1]
    have hback : collision
        { ({ g with currentPiece := transposed g.currentPiece } : Game) with
          currentPiece := transposed (transposed g.currentPiece) } = false := h
    rw [rotate_of_free _ hback]
    rfl

/-! ## Facts about the score and the rows cleared -/

theorem clearLinesCount_fst : ∀ (fuel : Nat) (y : Int) (hy : y < boardHeight) (g : Game)
    (k : Nat), (clearLinesCount fuel y hy g k).map Prod.fst = clearLinesLoop fuel y hy g := by
  intro fuel
  induction fuel with
  | zero => intro y hy g k; rfl
  | succ n ih =>
    intro y hy g k
    rw [clearLinesCount, clearLinesLoop]
    split_ifs with hy0 hf
    · exact ih _ _ _ _
    · exact ih _ _ _ _
    · rfl

theorem clearLinesCount_some : ∀ (fuel : Nat) (y : Int) (hy : y < boardHeight) (g : Game)
    (k : Nat) (g1 : Game) (k1 : Nat), clearLinesCount fuel y hy g k = some (g1, k1) →
      g1 = g ∧ k1 = k := by
  intro fuel
  induction fuel with
  | zero => intro y hy g k g1 k1 h; simp [clearLinesCount] at h
  | succ n ih =>
    intro y hy g k g1 k1 h
    rw [clearLinesCount] at h
    split_ifs at h with hy0 hf
    · exfalso
      have hdiv := clearLinesLoop_diverges n (y + 1 - 1) (by omega)
        (clearRow g ⟨y.toNat, by simp only [boardHeight] at hy; omega⟩)
        ⟨0, by simp only [Fin.val_zero, Nat.cast_zero]; omega,
          by rw [clearRow_board_zero]; exact rowFull_zeroRow⟩
      rw [← clearLinesCount_fst n _ _ _ (k + 1), h] at hdiv
      simp at hdiv
    · exact ih _ _ _ _ _ _ h
    · simp only [Option.some.injEq, Prod.mk.injEq] at h
      exact ⟨h.1.symm, h.2.symm⟩

theorem clearLinesCounted_fst (fuel : Nat) (g : Game) :
    (clearLinesCounted fuel g).map Prod.fst = clearLines fuel g :=
  clearLinesCount_fst fuel _ _ g 0

theorem clearLines_some (fuel : Nat) (g g1 : Game) (h : clearLines fuel g = some g1) :
    clearLinesCounted fuel g = some (g, 0) ∧ g1 = g := by
  rw [← clearLinesCounted_fst] at h
  cases hc : clearLinesCounted fuel g with
  | none => rw [hc] at h; simp at h
  | some p =>
    obtain ⟨g2, k⟩ := p
    rw [hc] at h
    simp only [Option.map_some', Option.some.injEq] at h
    obtain ⟨h1, h2⟩ := clearLinesCount_some fuel _ _ g 0 g2 k hc
    subst h1; subst h2
    exact ⟨rfl, h.symm⟩

theorem lockPiece_score (fuel : Nat) (r : Fin 7) (g g1 : Game)
    (h : lockPiece fuel r g = some g1) :
    clearLinesCounted fuel (lockWrite g) = some (lockWrite g, 0) ∧ g1.score = g.score := by
  obtain ⟨g2, hcl, rfl⟩ := lockPiece_some fuel r g g1 h
  obtain ⟨hc, rfl⟩ := clearLines_some fuel _ _ hcl
  exact ⟨hc, (spawnPiece_fields r _).2.2.2.2⟩

theorem moveLeft_score (g : Game) : (moveLeft g).score = g.score := by
  rcases moveLeft_cases g with h | ⟨h, _⟩ <;> rw [h]

theorem moveRight_score (g : Game) : (moveRight g).score = g.score := by
  rcases moveRight_cases g with h | ⟨h, _⟩ <;> rw [h]

theorem rotate_score (g : Game) : (rotate g).score = g.score := by
  rcases rotate_cases g with h | ⟨h, _⟩ <;> rw [h]

theorem moveDown_score (fuel : Nat) (r : Fin 7) (g g1 : Game) (moved : Bool)
    (h : moveDown fuel r g = some (g1, moved)) : g1.score = g.score := by
  rcases moveDown_some fuel r g g1 moved h with ⟨_, h1, _⟩ | ⟨_, h1, _⟩
  · rw [h1]
  · exact (lockPiece_score fuel r g g1 h1).2

theorem NewGame_score (now : Int) (r : Fin 7) : (NewGame now r).score = 0 :=
  (spawnPiece_fields r _).2.2.2.2

theorem reachable_score (g : Game) (h : Reachable g) : g.score = 0 := by
  induction h with
  | init now r => exact NewGame_score now r
  | @left g0 _ ih => rw [moveLeft_score]; exact ih
  | @right g0 _ ih => rw [moveRight_score]; exact ih
  | @rot g0 _ ih => rw [rotate_score]; exact ih
  | down fuel r _ hm ih => rw [moveDown_score fuel r _ _ _ hm]; exact ih

/-! ## Facts about `NewGame` -/

theorem mem_colIdx (x : Fin 10) : x ∈ colIdx := by
  revert x; decide

theorem mem_rowIdx (y : Fin 20) : y ∈ rowIdx := by
  revert y; decide

theorem rowFull_eq_false_iff (row : Row) :
    rowFull row = false ↔ ∃ c : Fin 10, row c = backgroundColor := by
  unfold rowFull
  rw [← Bool.not_eq_true, List.all_eq_true]
  constructor
  · intro h
    by_contra hne
    apply h
    intro x _
    simp only [Bool.not_eq_true', decide_eq_false_iff_not]
    exact fun hx => hne ⟨x, hx⟩
  · rintro ⟨c, hc⟩ h
    have := h c (mem_colIdx c)
    simp [hc] at this

theorem foldl_setCell_cols (y : Fin 20) (l : List (Fin 10)) : ∀ (b : Board) (r : Fin 20)
    (c : Fin 10), (l.foldl (fun b2 x => setCell b2 y x backgroundColor) b) r c =
      if r = y ∧ c ∈ l then backgroundColor else b r c := by
  induction l with
  | nil => intro b r c; simp
  | cons x t ih =>
    intro b r c
    rw [List.foldl_cons, ih]
    simp only [setCell, List.mem_cons]
    by_cases h1 : r = y <;> by_cases h2 : c ∈ t <;> by_cases h3 : c = x <;> simp [h1, h2, h3]

theorem foldl_fill_rows (l : List (Fin 20)) : ∀ (b : Board) (r : Fin 20) (c : Fin 10),
    (l.foldl (fun b1 y => colIdx.foldl (fun b2 x => setCell b2 y x backgroundColor) b1) b) r c =
      if r ∈ l then backgroundColor else b r c := by
  induction l with
  | nil => intro b r c; simp
  | cons y t ih =>
    intro b r c
    rw [List.foldl_cons, ih, foldl_setCell_cols]
    have hc : c ∈ colIdx := mem_colIdx c
    simp only [List.mem_cons, hc, and_true]
    by_cases h1 : r ∈ t <;> by_cases h2 : r = y <;> simp [h1, h2]

theorem fillBackground_eq (b : Board) : fillBackground b = emptyBoard := by
  funext r c
  unfold fillBackground
  rw [foldl_fill_rows]
  have hr : r ∈ rowIdx := mem_rowIdx r
  rw [if_pos hr]
  rfl

theorem NewGame_board (now : Int) (r : Fin 7) : (NewGame now r).board = emptyBoard := by
  unfold NewGame
  rw [(spawnPiece_fields r _).1]
  exact fillBackground_eq _

theorem not_occupied_emptyBoard (y x : Int) : ¬ occupied emptyBoard y x := by
  rintro ⟨r, c, _, _, h⟩
  exact h rfl

theorem spawned_empty_free (r : Fin 7) (g : Game) (h : g.board = emptyBoard) :
    collision (spawned r g) = false := by
  rw [not_collision_iff]
  constructor
  · have hb : ∀ (r : Fin 7) (i : Fin 4),
        0 ≤ (GoInt.ofInt (boardWidth / 2 - 2) + ((pieces r).blocks i).x).val ∧
        (GoInt.ofInt (boardWidth / 2 - 2) + ((pieces r).blocks i).x).val < 10 ∧
        ((-1 : GoInt) + ((pieces r).blocks i).y).val < 20 := by decide
    exact hb r
  · intro i _
    show ¬ occupied g.board _ _
    rw [h]
    exact not_occupied_emptyBoard _ _

theorem tower_over_eval :
    (runCalls towerCalls (NewGame 0 0)).any (fun g =>
      decide (g.gameOver = true ∧ g.currentX = 3 ∧ (moveLeft g).currentX = 2 ∧
        (moveLeft g).gameOver = true)) = true := by
  decide!

/-! ## The claims, continued -/

/-- C11: from a session whose game-over flag is true, the flag is true after
`spawnPiece`, `moveLeft`, `moveRight` and `rotate`, after every call of
`moveDown`, `lockPiece` and `clearLines` that returns, and after a whole
`Update` tick, whatever the keys, clock readings and draws; the write loop of
`lockPiece` and each row clear of `clearLines` keep it too, and `lockPiece`
does return, with the flag true, when the written board has no full row. -/
theorem gameOver_terminal (g : Game) (hover : g.gameOver = true) :
    (∀ r : Fin 7, (spawnPiece r g).gameOver = true) ∧
    (moveLeft g).gameOver = true ∧ (moveRight g).gameOver = true ∧
    (rotate g).gameOver = true ∧
    (∀ (fuel : Nat) (r : Fin 7) (g1 : Game) (moved : Bool),
      moveDown fuel r g = some (g1, moved) → g1.gameOver = true) ∧
    (∀ (fuel : Nat) (r : Fin 7) (g1 : Game), lockPiece fuel r g = some g1 →
      g1.gameOver = true) ∧
    (∀ (fuel : Nat) (g1 : Game), clearLines fuel g = some g1 → g1.gameOver = true) ∧
    (∀ (fuel : Nat) (t : Tick) (g1 : Game) (n : Nat), Update fuel t g = some (g1, n) →
      g1.gameOver = true) ∧
    (∀ (fuel : Nat) (t : Tick), ∃ g1 n, Update fuel t g = some (g1, n)) ∧
    (lockWrite g).gameOver = true ∧ (∀ y : Fin 20, (clearRow g y).gameOver = true) ∧
    (∀ (fuel : Nat) (r : Fin 7), 21 ≤ fuel →
      (∀ y : Fin 20, rowFull ((lockWrite g).board y) = false) →
        ∃ g1 : Game, lockPiece fuel r g = some g1 ∧ g1.gameOver = true) := by
  refine ⟨fun r => spawnPiece_keeps_over r g hover, ?_, ?_, ?_, ?_, ?_, ?_, ?_, ?_, hover,
    fun _ => hover, ?_⟩
  · rw [moveLeft_gameOver]; exact hover
  · rw [moveRight_gameOver]; exact hover
  · rw [rotate_gameOver]; exact hover
  · intro fuel r g1 moved h
    exact moveDown_keeps_over fuel r g g1 moved hover h
  · intro fuel r g1 h
    exact lockPiece_keeps_over fuel r g g1 hover h
  · intro fuel g1 h
    rw [clearLines_gameOver fuel g g1 h]; exact hover
  · intro fuel t g1 n h
    rw [Update_of_over fuel t g hover] at h
    simp only [Option.some.injEq, Prod.mk.injEq] at h
    rw [← h.1]; exact hover
  · intro fuel t
    exact ⟨g, 0, Update_of_over fuel t g hover⟩
  · intro fuel r hfuel hno
    refine ⟨_, lockPiece_no_full fuel r g hno hfuel, ?_⟩
    exact spawnPiece_keeps_over r _ hover

/-- Witness for C11: the finished session `overGame` keeps its flag through a
spawn and through a lock that returns. -/
theorem gameOver_terminal_witness :
    (spawnPiece 2 overGame).gameOver = true ∧
    ∃ g1 : Game, lockPiece 21 2 overGame = some g1 ∧ g1.gameOver = true :=
  ⟨(gameOver_terminal overGame rfl).1 2,
    (gameOver_terminal overGame rfl).2.2.2.2.2.2.2.2.2.2.2 21 2 (by decide) (by decide)⟩

/-- C12, amended: for every session whose game-over flag is true, a call of
`Update` leaves the whole session unchanged and takes no draw, whatever keys
are held and whatever the clock reads: the tick returns before any of
`moveLeft`, `moveRight`, `moveDown` and `rotate` is called. -/
theorem update_noop_when_over (fuel : Nat) (t : Tick) (g : Game)
    (hover : g.gameOver = true) : Update fuel t g = some (g, 0) :=
  Update_of_over fuel t g hover

/-- Witness for C12 as amended: with every key held and the fall interval
elapsed, the tick leaves `overGame` as it is, even with no fuel. -/
theorem update_noop_when_over_witness : Update 0 allKeysTick overGame = some (overGame, 0) :=
  update_noop_when_over 0 allKeysTick overGame rfl

/-- Counterexample to C12 as stated: in the game-over session reached by
`towerCalls` (J piece at column 3 on top of the stack), a direct call of
`moveLeft` is committed: it moves the anchor to column 2. -/
theorem moveLeft_after_game_over :
    ∃ g : Game, runCalls towerCalls (NewGame 0 0) = some g ∧ Reachable g ∧
      g.gameOver = true ∧ g.currentX = 3 ∧ (moveLeft g).currentX = 2 ∧ moveLeft g ≠ g := by
  have h := tower_over_eval
  cases hr : runCalls towerCalls (NewGame 0 0) with
  | none => rw [hr] at h; simp at h
  | some g =>
    rw [hr] at h
    simp only [Option.any_some, decide_eq_true_eq] at h
    obtain ⟨h1, h2, h3, _⟩ := h
    refine ⟨g, rfl, reachable_runCalls _ _ _ (Reachable.init 0 0) hr, h1, h2, h3, ?_⟩
    intro heq
    rw [heq, h2] at h3
    exact absurd h3 (by decide)

/-- C13: on an O piece resting on the floor of an empty board, a tick with no
key held and the fall interval elapsed does not end in the session of a single
`moveDown`: `moveDown` locks the piece and spawns the first draw (T), then
`Update` calls `spawnPiece` once more, so the tick takes two draws and ends
with the second draw (I) as the active piece. -/
theorem update_fall_lock_spawns_twice :
    restingGame.gameOver = false ∧
    fallTick.clock - restingGame.lastMoveTime ≥ restingGame.moveInternal ∧
    moveDown 21 (fallTick.draw 0) restingGame =
      some (spawnPiece 2 (lockWrite restingGame), false) ∧
    Update 21 fallTick restingGame =
      some ({ spawnPiece 0 (spawnPiece 2 (lockWrite restingGame)) with
        lastMoveTime := fallTick.now }, 2) ∧
    (spawnPiece 2 (lockWrite restingGame)).currentPiece = pieces 2 ∧
    (spawnPiece 0 (spawnPiece 2 (lockWrite restingGame))).currentPiece = pieces 0 ∧
    (pieces 0).color ≠ (pieces 2).color ∧
    ({ spawnPiece 0 (spawnPiece 2 (lockWrite restingGame)) with
        lastMoveTime := fallTick.now } : Game) ≠
      { spawnPiece 2 (lockWrite restingGame) with lastMoveTime := fallTick.now } := by
  have hm : moveDown 21 (fallTick.draw 0) restingGame =
      some (spawnPiece 2 (lockWrite restingGame), false) := by
    show moveDown 21 2 restingGame = _
    rw [moveDown_of_blocked 21 2 restingGame (by decide),
      lockPiece_no_full 21 2 restingGame (by decide) (by decide)]
    rfl
  have hu := Update_fall 21 fallTick restingGame rfl rfl rfl rfl rfl (by decide)
  rw [hm] at hu
  have h2 := (spawnPiece_fields 2 (lockWrite restingGame)).2.1
  have h0 := (spawnPiece_fields 0 (spawnPiece 2 (lockWrite restingGame))).2.1
  refine ⟨rfl, by decide, hm, hu, h2, h0, by decide, ?_⟩
  intro heq
  have hc := congrArg (fun g : Game => g.currentPiece.color) heq
  simp only [] at hc
  rw [h0, h2] at hc
  exact absurd hc (by decide)

/-- C14: when some cell of the active piece is in column 0, `moveLeft` returns
the session it was given, and so does any number of consecutive calls; in
particular `currentX` is unchanged. -/
theorem moveLeft_wall_idempotent (g : Game) (h : ∃ i : Fin 4, absX g i = 0) (n : Nat) :
    Nat.iterate moveLeft n g = g ∧ (Nat.iterate moveLeft n g).currentX = g.currentX := by
  have hfix : Nat.iterate moveLeft n g = g := Function.iterate_fixed (moveLeft_at_wall g h) n
  exact ⟨hfix, by rw [hfix]⟩

/-- Witness for C14: five calls of `moveLeft` on an O piece against the left
wall. -/
theorem moveLeft_wall_idempotent_witness : Nat.iterate moveLeft 5 leftWallGame = leftWallGame :=
  (moveLeft_wall_idempotent leftWallGame ⟨0, by decide⟩ 5).1

/-- C15: on the board whose rows 18 and 19 are filled except for column 3, with
an upright I piece resting in column 3, the written board has exactly rows 18
and 19 full; after the first clear row 19 is full again and is cleared on the
re-examination; after these two clears the score is up by 200 and rows 0 and 1
hold the zero colour, which does not count as empty; and `lockPiece` returns
for no amount of fuel. -/
theorem lockPiece_double_clear_never_returns :
    (∀ r : Fin 20, rowFull (doubleGapGame.board r) = false) ∧
    (∀ r : Fin 20,
      rowFull ((lockWrite doubleGapGame).board r) = decide (r = 18 ∨ r = 19)) ∧
    rowFull ((clearRow (lockWrite doubleGapGame) 19).board 19) = true ∧
    (clearRow (clearRow (lockWrite doubleGapGame) 19) 19).score = doubleGapGame.score + 200 ∧
    (∀ c : Fin 10, (clearRow (clearRow (lockWrite doubleGapGame) 19) 19).board 0 c = zeroColor ∧
      (clearRow (clearRow (lockWrite doubleGapGame) 19) 19).board 1 c = zeroColor) ∧
    rowFull ((clearRow (clearRow (lockWrite doubleGapGame) 19) 19).board 1) = true ∧
    ∀ (fuel : Nat) (r : Fin 7), lockPiece fuel r doubleGapGame = none := by
  refine ⟨by decide, by decide, by decide, by decide, by decide, by decide, ?_⟩
  intro fuel r
  rw [lockPiece_eq, clearLines_diverges fuel _ 19 (by decide)]
  rfl

theorem GoInt.add_ofInt_zero (a : GoInt) : a + GoInt.ofInt 0 = a := by
  apply GoInt.ext
  have := a.lo; have := a.hi
  rw [GoInt.add_val, GoInt.ofInt_val]
  unfold wrap64
  omega

theorem GoInt.add_hundred_add (a : GoInt) (m : Nat) :
    a + 100 + GoInt.ofInt (100 * (m : Int)) = a + GoInt.ofInt (100 * ((m + 1 : Nat) : Int)) := by
  apply GoInt.ext
  have := a.lo; have := a.hi
  rw [GoInt.add_val, GoInt.add_val, GoInt.add_val, GoInt.ofInt_val, GoInt.ofInt_val,
    GoInt.lit_val]
  unfold wrap64
  push_cast
  omega

theorem clearLinesAfter_of_some : ∀ (fuel : Nat) (y : Int) (hy : y < boardHeight)
    (g g1 : Game), clearLinesLoop fuel y hy g = some g1 → clearLinesAfter fuel y hy g = g1 := by
  intro fuel
  induction fuel with
  | zero => intro y hy g g1 h; simp [clearLinesLoop] at h
  | succ n ih =>
    intro y hy g g1 h
    rw [clearLinesLoop] at h
    rw [clearLinesAfter]
    split_ifs at h ⊢ with hy0 hf
    · exact ih _ _ _ _ h
    · exact ih _ _ _ _ h
    · simpa using h

theorem clearLinesAfter_top : ∀ (m : Nat) (y : Int) (hy : y < boardHeight) (g : Game),
    y = 0 → rowFull (g.board 0) = true →
      (clearLinesAfter m y hy g).score = g.score + GoInt.ofInt (100 * (m : Int)) := by
  intro m
  induction m with
  | zero =>
    intro y hy g _ _
    rw [clearLinesAfter]
    exact (GoInt.add_ofInt_zero g.score).symm
  | succ n ih =>
    intro y hy g hy0 hfull
    subst hy0
    have hidx : (⟨(0 : Int).toNat, by decide⟩ : Fin 20) = 0 := rfl
    rw [clearLinesAfter, dif_pos (le_refl _)]
    simp only [hidx, hfull, if_true]
    rw [ih _ _ _ (by omega) (by rw [clearRow_board_zero]; exact rowFull_zeroRow)]
    show g.score + 100 + GoInt.ofInt (100 * (n : Int)) = _
    exact GoInt.add_hundred_add g.score n

theorem clearLinesAfter_descend : ∀ (k m : Nat) (y : Int) (hy : y < boardHeight) (g : Game),
    y = k → (∀ r : Fin 20, 1 ≤ r.val → r.val ≤ k → rowFull (g.board r) = false) →
      clearLinesAfter (k + m) y hy g = clearLinesAfter m 0 (by decide) g := by
  intro k
  induction k with
  | zero =>
    intro m y hy g hy0 _
    simp only [Nat.cast_zero] at hy0
    subst hy0
    rw [Nat.zero_add]
  | succ n ih =>
    intro m y hy g hyk hno
    have hy0 : y ≥ 0 := by omega
    have hrow : rowFull (g.board ⟨y.toNat, by simp only [boardHeight] at hy; omega⟩) = false := by
      apply hno
      · show 1 ≤ y.toNat; omega
      · show y.toNat ≤ n + 1; omega
    have hsucc : n + 1 + m = (n + m) + 1 := by omega
    rw [hsucc, clearLinesAfter, dif_pos hy0]
    simp only [hrow, Bool.false_eq_true, if_false]
    apply ih
    · push_cast at hyk; omega
    · intro r h1 h2
      exact hno r h1 (by omega)

theorem scanAfter_bottomFull (m : Nat) :
    (scanAfter (20 + m) bottomFullGame).score = GoInt.ofInt (100 * ((m + 1 : Nat) : Int)) := by
  have hfirst : scanAfter (20 + m) bottomFullGame =
      clearLinesAfter (19 + m) (boardHeight - 1 + 1 - 1) (by decide)
        (clearRow bottomFullGame 19) := by
    have h20 : 20 + m = (19 + m) + 1 := by omega
    unfold scanAfter
    rw [h20, clearLinesAfter, dif_pos (by decide)]
    have hfull : rowFull (bottomFullGame.board ⟨(boardHeight - 1).toNat, by decide⟩) = true := by
      decide
    simp only [hfull, if_true]
    rfl
  rw [hfirst, clearLinesAfter_descend 19 m _ _ _ (by decide) (by decide),
    clearLinesAfter_top m 0 _ _ rfl (by rw [clearRow_board_zero]; exact rowFull_zeroRow)]
  have hs : (clearRow bottomFullGame 19).score = (0 : GoInt) + 100 := rfl
  rw [hs, GoInt.add_hundred_add]
  apply GoInt.ext
  rw [GoInt.add_val, GoInt.ofInt_val, GoInt.lit_val]
  unfold wrap64
  push_cast
  omega

/-- C16: on the board whose row 19 is full and whose other rows are empty, with
score 0, `clearLines` returns for no amount of fuel, and once its loop
condition has been tested `20 + m` times the score is `100 * (m + 1)` in `int`
arithmetic: 100 after the one clear of a completed row, 200 one test later, and
a negative number after `20 + 92233720368547758` tests. The score is neither
100 times the one row that was full nor bounded below by 0. -/
theorem score_runs_away_after_a_clear :
    bottomFullGame.score = 0 ∧
    (∀ r : Fin 20, rowFull (bottomFullGame.board r) = decide (r = 19)) ∧
    (∀ fuel : Nat, clearLines fuel bottomFullGame = none) ∧
    (∀ m : Nat, (scanAfter (20 + m) bottomFullGame).score =
      GoInt.ofInt (100 * ((m + 1 : Nat) : Int))) ∧
    (scanAfter 20 bottomFullGame).score = 100 ∧
    (scanAfter 21 bottomFullGame).score = 200 ∧
    (scanAfter 22 bottomFullGame).score = 300 ∧
    (scanAfter (20 + 92233720368547758) bottomFullGame).score.val < 0 := by
  refine ⟨rfl, by decide, fun fuel => clearLines_diverges fuel _ 19 (by decide),
    scanAfter_bottomFull, ?_, ?_, ?_, ?_⟩
  · rw [scanAfter_bottomFull 0]; decide
  · rw [scanAfter_bottomFull 1]; decide
  · rw [scanAfter_bottomFull 2]; decide
  · rw [scanAfter_bottomFull 92233720368547758]; decide

/-- C17: in every session reachable from `NewGame` by calls of `moveLeft`,
`moveRight`, `moveDown` and `rotate`, whatever shapes are drawn, if the
game-over flag is false then `collision` is false. -/
theorem reachable_live_piece_legal (g : Game) (h : Reachable g)
    (hlive : g.gameOver = false) : collision g = false :=
  reachable_live_legal g h hlive

/-- Witness for C17: a fresh T piece, rotated and moved one column left. -/
theorem reachable_live_piece_legal_witness :
    collision (moveLeft (rotate (NewGame 0 2))) = false :=
  reachable_live_piece_legal _ (Reachable.left (Reachable.rot (Reachable.init 0 2)))
    (by decide!)

/-- C18: when every row of the board holds at least one cell equal to the
background colour, `clearLines` returns after 21 tests of its loop condition
with the session it was given: board, score and every other field unchanged,
no row cleared. -/
theorem clearLines_identity_when_nothing_full (fuel : Nat) (g : Game)
    (h : ∀ r : Fin 20, ∃ c : Fin 10, g.board r c = backgroundColor) (hfuel : 21 ≤ fuel) :
    clearLines fuel g = some g ∧ clearLinesCounted fuel g = some (g, 0) := by
  have hc : clearLines fuel g = some g :=
    clearLines_no_full fuel g (fun r => (rowFull_eq_false_iff _).2 (h r)) hfuel
  exact ⟨hc, (clearLines_some fuel g g hc).1⟩

/-- Witness for C18: the written board of an O piece locked on the floor of an
empty board. -/
theorem clearLines_identity_when_nothing_full_witness :
    clearLines 21 (lockWrite restingGame) = some (lockWrite restingGame) :=
  (clearLines_identity_when_nothing_full 21 (lockWrite restingGame) (by decide)
    (by decide)).1

/-- C19: for every clock reading and each of the seven shapes, `NewGame` yields
a session whose board is entirely background colour, whose score is 0, whose
piece is the drawn catalog piece anchored at column 3 (`boardWidth/2 - 2`) and
row -1, whose piece does not collide, and whose game-over flag is false. -/
theorem NewGame_falling (now : Int) (r : Fin 7) :
    (∀ (y : Fin 20) (x : Fin 10), (NewGame now r).board y x = backgroundColor) ∧
    (NewGame now r).score = 0 ∧
    (NewGame now r).currentX = 3 ∧
    (NewGame now r).currentX = GoInt.ofInt (boardWidth / 2 - 2) ∧
    (NewGame now r).currentY = -1 ∧
    (NewGame now r).currentPiece = pieces r ∧
    collision (NewGame now r) = false ∧
    (NewGame now r).gameOver = false := by
  have hb := NewGame_board now r
  have hfree : collision (spawned r { zeroGame now with
      board := fillBackground (zeroGame now).board }) = false :=
    spawned_empty_free r _ (fillBackground_eq _)
  have heq : NewGame now r = spawned r { zeroGame now with
      board := fillBackground (zeroGame now).board } := by
    unfold NewGame
    simp only []
    rw [spawnPiece_eq, if_neg (by simp [hfree])]
  refine ⟨fun y x => by rw [hb]; rfl, NewGame_score now r, ?_, ?_, ?_, ?_, ?_, ?_⟩
  · exact (spawnPiece_fields r _).2.2.1
  · rw [heq]; rfl
  · exact (spawnPiece_fields r _).2.2.2.1
  · exact (spawnPiece_fields r _).2.1
  · rw [heq]; exact hfree
  · rw [heq]; rfl

/-- C20: for every session in which `collision` is false, two calls of `rotate`
in a row return exactly the session they started from, whether the first call
was accepted or rejected. -/
theorem rotate_involution (g : Game) (h : collision g = false) :
    rotate (rotate g) = g ∧
    (∀ i : Fin 4, (rotate (rotate g)).currentPiece.blocks i = g.currentPiece.blocks i) := by
  have hrr := rotate_rotate g h
  exact ⟨hrr, fun i => by rw [hrr]⟩

/-- Witness for C20: an O piece in the open (first rotation accepted) and an I
piece lying in row 17 (first rotation rejected). -/
theorem rotate_involution_witness :
    rotate (rotate leftWallGame) = leftWallGame ∧ rotate (rotate lowGame) = lowGame :=
  ⟨(rotate_involution leftWallGame (by decide)).1, (rotate_involution lowGame (by decide)).1⟩

end Tetris
